import Mathlib

/-!
Verification development for the prestashop-reorder-interface repository.

The repository's computational core consists of three Python modules:
  * `recommendation_script.py` — reorder scoring, cross-sell association
    mining and the final per-customer normalized recommendation list;
  * `app.py` — sales-history aggregation (`build_recommendations_from_sales`),
    association rules (`build_product_pairs`) and per-customer cross-sell
    suggestions (`suggest_cross_sell_for_customer`);
  * `matcher/matcher.py` — text normalization (`_norm_txt`), PDF record
    extraction (`load_order_pdf`), customer statistics
    (`_build_customer_stats`) and catalog matching (`match_order_to_catalog`).

Each definition below is a shallow embedding of the corresponding Python
function.  Floating point arithmetic is modelled by exact rationals (`ℚ`);
pandas `NaN` values are modelled by `Option`; Python strings are modelled by
Lean `String`/`List Char` with the ASCII fragments of `str.lower`, `\s`, `\w`
and `string.punctuation` spelled out explicitly (all inputs appearing in the
theorems are ASCII, where the Python and Lean notions agree).
-/

namespace Reorder

/-! ## Shared helpers -/

/-- Maximum of a list of rationals, with `0` for the empty list.  This models
the pandas `Series.max()` of a series of non-negative scores (every theorem
using it carries a non-negativity hypothesis, under which it agrees with the
true maximum of a non-empty series). -/
def listMax (l : List ℚ) : ℚ := l.foldr max 0

theorem le_listMax {l : List ℚ} {x : ℚ} (hx : x ∈ l) : x ≤ listMax l := by
  induction l with
  | nil => cases hx
  | cons a t ih =>
    rcases List.mem_cons.1 hx with h | h
    · subst h; exact le_max_left _ _
    · exact le_trans (ih h) (le_max_right _ _)

theorem listMax_le {l : List ℚ} {c : ℚ} (hc : 0 ≤ c) (h : ∀ x ∈ l, x ≤ c) :
    listMax l ≤ c := by
  induction l with
  | nil => exact hc
  | cons a t ih =>
    exact max_le (h a (List.mem_cons_self a t))
      (ih fun x hx => h x (List.mem_cons_of_mem a hx))

theorem listMax_cons (a : ℚ) (t : List ℚ) : listMax (a :: t) = max a (listMax t) := rfl

theorem listMax_mem_or_zero (l : List ℚ) : listMax l ∈ l ∨ listMax l = 0 := by
  induction l with
  | nil => exact Or.inr rfl
  | cons a t ih =>
    rw [listMax_cons]
    rcases max_cases a (listMax t) with ⟨h, _⟩ | ⟨h, _⟩
    · rw [h]; exact Or.inl (List.mem_cons_self a t)
    · rcases ih with hm | hz
      · rw [h]; exact Or.inl (List.mem_cons_of_mem a hm)
      · rw [h]; exact Or.inr hz

theorem listMax_nonneg (l : List ℚ) : 0 ≤ listMax l := by
  induction l with
  | nil => exact le_refl 0
  | cons a t ih => exact le_trans ih (le_max_right _ _)

end Reorder

namespace RecScript

open Reorder

/-!
## Recommendation scorer normalization
(`recommendation_script.py`, `generate_recommendations`, lines 110-119, and
`app.py`, `build_recommendations_from_sales`, lines 276-279.)

`generate_recommendations` computes, per customer,
  `normalized_score = score / max_score_per_cust.replace(0, 1)`,
i.e. it divides every raw score of the customer by the customer's maximal raw
score, with a maximum of `0` replaced by `1`.

`build_recommendations_from_sales` computes, per customer,
  `(s / s.max()).fillna(0)`;
when the maximum is `0` every score of that customer is `0` (scores are sums
of non-negative quantities), `0/0` is `NaN` and `fillna` turns it into `0`.
-/

/-- Per-customer normalization of `generate_recommendations`
(`recommendation_script.py` line 115-116): divide by the customer's maximal
raw score, a zero maximum being replaced by `1`. -/
def normalizePerCustomer (scores : List ℚ) : List ℚ :=
  scores.map fun s => s / (if listMax scores = 0 then 1 else listMax scores)

/-- Per-customer normalization of `build_recommendations_from_sales`
(`app.py` lines 277-279): `(s / s.max()).fillna(0)`.  When the maximum is `0`
every (non-negative) score is `0`, the quotient is `NaN` and `fillna` yields
`0`; the branch below models exactly that. -/
def normalizeBySales (scores : List ℚ) : List ℚ :=
  scores.map fun s => if listMax scores = 0 then 0 else s / listMax scores

theorem listMax_pos_of_ne_zero {scores : List ℚ}
    (hpos : ∀ s ∈ scores, 0 ≤ s) {s : ℚ} (hs : s ∈ scores) (hne : s ≠ 0) :
    0 < listMax scores :=
  lt_of_lt_of_le (lt_of_le_of_ne (hpos s hs) (Ne.symm hne)) (le_listMax hs)

theorem listMax_div_eq_one {scores : List ℚ} (hm : 0 < listMax scores) :
    listMax (scores.map fun s => s / listMax scores) = 1 := by
  apply le_antisymm
  · apply listMax_le zero_le_one
    intro x hx
    rcases List.mem_map.1 hx with ⟨s, hs, rfl⟩
    exact div_le_one_of_le₀ (le_listMax hs) (le_of_lt hm)
  · apply le_listMax
    rcases listMax_mem_or_zero scores with hmem | hzero
    · exact List.mem_map.2 ⟨listMax scores, hmem, div_self (ne_of_gt hm)⟩
    · exact absurd hzero (ne_of_gt hm)

/-- C1: For every customer appearing in the recommendation output, the maximum
`normalized_score` over that customer's recommendations equals `1` unless all
of that customer's raw scores are zero, in which case every `normalized_score`
for that customer is `0`.  This holds for both normalizations in the code:
`generate_recommendations` (`recommendation_script.py` lines 110-119) and
`build_recommendations_from_sales` (`app.py` lines 276-279).  Raw scores are
non-negative by construction (sums of logistic scores resp. of coerced
quantities), captured by the `hpos` hypothesis. -/
theorem normalized_score_max_one (scores : List ℚ) (_hne : scores ≠ [])
    (hpos : ∀ s ∈ scores, 0 ≤ s) :
    ((∃ s ∈ scores, s ≠ 0) →
      listMax (normalizePerCustomer scores) = 1 ∧
      listMax (normalizeBySales scores) = 1) ∧
    ((∀ s ∈ scores, s = 0) →
      (∀ t ∈ normalizePerCustomer scores, t = 0) ∧
      (∀ t ∈ normalizeBySales scores, t = 0)) := by
  constructor
  · rintro ⟨s, hs, hsne⟩
    have hm : 0 < listMax scores := listMax_pos_of_ne_zero hpos hs hsne
    have hm0 : listMax scores ≠ 0 := ne_of_gt hm
    constructor
    · unfold normalizePerCustomer
      rw [if_neg hm0]
      exact listMax_div_eq_one hm
    · unfold normalizeBySales
      have : (scores.map fun s => if listMax scores = 0 then 0 else s / listMax scores)
          = scores.map fun s => s / listMax scores := by
        apply List.map_congr_left
        intro a _
        rw [if_neg hm0]
      rw [this]
      exact listMax_div_eq_one hm
  · intro hall
    have hm : listMax scores = 0 := by
      apply le_antisymm
      · exact listMax_le (le_refl 0) fun x hx => le_of_eq (hall x hx)
      · exact listMax_nonneg scores
    constructor
    · intro t ht
      rcases List.mem_map.1 ht with ⟨s, hs, rfl⟩
      rw [hall s hs]
      simp
    · intro t ht
      rcases List.mem_map.1 ht with ⟨s, hs, rfl⟩
      rw [if_pos hm]

/-- Witness for C1 at the concrete score lists `[2, 1]` and `[0, 0]`. -/
theorem normalized_score_max_one_witness :
    (listMax (normalizePerCustomer [2, 1]) = 1 ∧
      listMax (normalizeBySales [2, 1]) = 1) ∧
    (∀ t ∈ normalizePerCustomer [0, 0], t = 0) := by
  refine ⟨?_, ?_⟩
  · exact (normalized_score_max_one [2, 1] (by decide)
      (by intro s hs; fin_cases hs <;> norm_num)).1 ⟨2, by decide, by decide⟩
  · exact ((normalized_score_max_one [0, 0] (by decide)
      (by intro s hs; fin_cases hs <;> norm_num)).2
      (by intro s hs; fin_cases hs <;> rfl)).1

end RecScript


namespace App

/-!
## Association miner (`app.py`, `build_product_pairs`, lines 302-365) and
## cross-sell suggestions (`app.py`, `suggest_cross_sell_for_customer`, lines 368-427)

A sales row carries the order id, the customer id and the product id (the
columns `col_order`, `col_customer`, `col_product` of the sales DataFrame,
string-normalized by `_safe_str`).  The optional product-name exclusion
filter (`exclude_patterns`/`col_product_name`) is modelled in its
`col_product_name = None` configuration (no row excluded), which the claims
do not exercise.
-/

structure SRow where
  oid : String
  cust : String
  pid : String

/-- Python string `<` comparison (lexicographic on code points), used by
`pairs["a"] < pairs["b"]` in `build_product_pairs`. -/
def charsLt : List Char → List Char → Bool
  | [], [] => false
  | [], _ :: _ => true
  | _ :: _, [] => false
  | a :: as, b :: bs => a.toNat < b.toNat || (a == b && charsLt as bs)

def strLtB (a b : String) : Bool := charsLt a.toList b.toList

/-- Lexicographic order on pairs `(a, b)`, the key order produced by
`pairs.groupby(["a", "b"])`. -/
def pairLeB (p q : String × String) : Bool :=
  strLtB p.1 q.1 || (p.1 == q.1 && (strLtB p.2 q.2 || p.2 == q.2))

/-- First-occurrence deduplication, as performed by pandas
`drop_duplicates` / `nunique` / `Series.unique`. -/
def dedupAux (seen : List String) : List String → List String
  | [] => []
  | x :: xs => if seen.contains x then dedupAux seen xs else x :: dedupAux (x :: seen) xs

def dedupFirst (l : List String) : List String := dedupAux [] l

/-- The distinct order ids of the sales rows
(`base[col_order].nunique()` counts them). -/
def distinctOrders (rows : List SRow) : List String := dedupFirst (rows.map (·.oid))

/-- Does order `o` contain product `p`?  (The deduplicated `(order, product)`
table `base` has a row `(o, p)`.) -/
def orderHas (rows : List SRow) (o p : String) : Bool :=
  rows.any fun r => r.oid == o && r.pid == p

/-- Number of distinct orders containing both `a` and `b`: the group size of
`(a, b)` after the self-merge of the deduplicated `(order, product)` table on
the order id (one merged row per order containing both). -/
def coCount (rows : List SRow) (a b : String) : Nat :=
  ((distinctOrders rows).filter fun o => orderHas rows o a && orderHas rows o b).length

/-- Number of distinct orders containing product `p`
(`base.groupby(col_product).size()` on the deduplicated table). -/
def ordersWith (rows : List SRow) (p : String) : Nat :=
  ((distinctOrders rows).filter fun o => orderHas rows o p).length

/-- Total number of orders (`orders_tot = base[col_order].nunique()`). -/
def ordersTot (rows : List SRow) : Nat := (distinctOrders rows).length

/-- An association rule row of the DataFrame returned by
`build_product_pairs`: columns `[a, b, co_count, support, conf_ab, conf_ba,
lift]`. -/
structure AssocRule where
  a : String
  b : String
  co_count : Nat
  support : ℚ
  conf_ab : ℚ
  conf_ba : ℚ
  lift : ℚ
deriving DecidableEq

def products (rows : List SRow) : List String := dedupFirst (rows.map (·.pid))

/-- The candidate pairs `(a, b)` with `a < b`, in the lexicographic key order
of `pairs.groupby(["a", "b"])`. -/
def candidatePairs (rows : List SRow) : List (String × String) :=
  let ps := products rows
  ((ps.product ps).filter fun p => strLtB p.1 p.2).insertionSort
    fun p q => pairLeB p q = true

/-- The rule for the product pair `(a, b)`, or `none` when the pair never
co-occurs in an order (no merged row, hence no group) or when its lift is
undefined (`(pA * pB).replace(0, np.nan)` followed by
`dropna(subset=["lift"])`; `pA * pB = 0` iff one of the integer counts is
zero, which cannot happen for a co-occurring pair, so nothing is actually
dropped). -/
def mkRule (rows : List SRow) (p : String × String) : Option AssocRule :=
  let co := coCount rows p.1 p.2
  if co = 0 then none
  else if ordersWith rows p.1 = 0 ∨ ordersWith rows p.2 = 0 then none
  else
    let tot : ℚ := (ordersTot rows : ℚ)
    let owa : ℚ := (ordersWith rows p.1 : ℚ)
    let owb : ℚ := (ordersWith rows p.2 : ℚ)
    some
      { a := p.1, b := p.2, co_count := co,
        support := (co : ℚ) / tot,
        conf_ab := (co : ℚ) / owa,
        conf_ba := (co : ℚ) / owb,
        lift := ((co : ℚ) / tot) / ((owa / tot) * (owb / tot)) }

/-- `build_product_pairs` (`app.py` lines 302-365): co-occurrence pairs
`a < b` with support, confidences and lift, sorted by lift descending. -/
def buildProductPairs (rows : List SRow) : List AssocRule :=
  ((candidatePairs rows).filterMap (mkRule rows)).insertionSort
    fun r s => s.lift ≤ r.lift

/-- The scenario transaction set of the claim:
orders `O1 = {P1, P2}`, `O2 = {P1, P2}`, `O3 = {P1}`. -/
def demoAssocRows : List SRow :=
  [⟨"O1", "C", "P1"⟩, ⟨"O1", "C", "P2"⟩,
   ⟨"O2", "C", "P1"⟩, ⟨"O2", "C", "P2"⟩,
   ⟨"O3", "C", "P1"⟩]

theorem mem_buildProductPairs {rows : List SRow} {r : AssocRule}
    (h : r ∈ buildProductPairs rows) :
    ∃ p : String × String, strLtB p.1 p.2 = true ∧ mkRule rows p = some r := by
  unfold buildProductPairs at h
  rw [List.mem_insertionSort] at h
  rcases List.mem_filterMap.1 h with ⟨p, hp, hmk⟩
  unfold candidatePairs at hp
  rw [List.mem_insertionSort] at hp
  exact ⟨p, (List.mem_filter.1 hp).2, hmk⟩

/-- C2: for every transaction set, every emitted association rule `(a, b)` has
`a < b`, a positive co-occurrence count, `support = co_count / total_orders`,
`conf_ab = co_count / orders_with(a)`, `conf_ba = co_count / orders_with(b)`
and `lift = support / (P(a) * P(b))`; pairs that never co-occur (and pairs
with undefined lift) yield no rule.  On the scenario orders
`O1 = {P1,P2}`, `O2 = {P1,P2}`, `O3 = {P1}` the miner emits exactly one rule
with `support = 2/3`, `conf_ab = 2/3`, `conf_ba = 1`, `lift = 1`. -/
theorem assoc_rules_correct :
    (∀ (rows : List SRow) (r : AssocRule), r ∈ buildProductPairs rows →
      strLtB r.a r.b = true ∧
      0 < coCount rows r.a r.b ∧
      0 < ordersWith rows r.a ∧ 0 < ordersWith rows r.b ∧
      r.co_count = coCount rows r.a r.b ∧
      r.support = (coCount rows r.a r.b : ℚ) / (ordersTot rows : ℚ) ∧
      r.conf_ab = (coCount rows r.a r.b : ℚ) / (ordersWith rows r.a : ℚ) ∧
      r.conf_ba = (coCount rows r.a r.b : ℚ) / (ordersWith rows r.b : ℚ) ∧
      r.lift = r.support /
        (((ordersWith rows r.a : ℚ) / (ordersTot rows : ℚ)) *
          ((ordersWith rows r.b : ℚ) / (ordersTot rows : ℚ)))) ∧
    buildProductPairs demoAssocRows =
      [{ a := "P1", b := "P2", co_count := 2,
         support := 2/3, conf_ab := 2/3, conf_ba := 1, lift := 1 }] := by
  constructor
  · intro rows r h
    rcases mem_buildProductPairs h with ⟨p, hlt, hmk⟩
    unfold mkRule at hmk
    by_cases hco : coCount rows p.1 p.2 = 0
    · simp [hco] at hmk
    · rw [if_neg hco] at hmk
      by_cases how : ordersWith rows p.1 = 0 ∨ ordersWith rows p.2 = 0
      · rw [if_pos how] at hmk
        exact absurd hmk (by simp)
      · rw [if_neg how] at hmk
        push_neg at how
        cases hmk
        exact ⟨hlt, Nat.pos_of_ne_zero hco, Nat.pos_of_ne_zero how.1,
          Nat.pos_of_ne_zero how.2, rfl, rfl, rfl, rfl, rfl⟩
  · have hcand : candidatePairs demoAssocRows = [("P1", "P2")] := by decide
    have hco : coCount demoAssocRows "P1" "P2" = 2 := by decide
    have ho1 : ordersWith demoAssocRows "P1" = 3 := by decide
    have ho2 : ordersWith demoAssocRows "P2" = 2 := by decide
    have ht : ordersTot demoAssocRows = 3 := by decide
    unfold buildProductPairs
    rw [hcand]
    show List.insertionSort _ (List.filterMap _ [("P1", "P2")]) = _
    rw [List.filterMap_cons, List.filterMap_nil]
    unfold mkRule
    rw [hco, ho1, ho2, ht]
    norm_num [List.insertionSort, List.orderedInsert]

/-- Witness for C2: the universally quantified part applied to the scenario
rule itself. -/
theorem assoc_rules_correct_witness :
    strLtB "P1" "P2" = true ∧
    (({ a := "P1", b := "P2", co_count := 2,
        support := 2/3, conf_ab := 2/3, conf_ba := 1, lift := 1 } : AssocRule).support =
      (coCount demoAssocRows "P1" "P2" : ℚ) / (ordersTot demoAssocRows : ℚ)) := by
  have h := assoc_rules_correct.1 demoAssocRows
    { a := "P1", b := "P2", co_count := 2,
      support := 2/3, conf_ab := 2/3, conf_ba := 1, lift := 1 }
    (by rw [assoc_rules_correct.2]; exact List.mem_singleton.2 rfl)
  exact ⟨h.1, h.2.2.2.2.2.2.1⟩

end App

namespace App

/-- A suggestion row of `suggest_cross_sell_for_customer`
(columns `[product_id, source_product, score]`; the `why` text column is
derived display data and not modelled). -/
structure Suggestion where
  product_id : String
  source_product : String
  score : ℚ
deriving DecidableEq

/-- The distinct products bought by customer `c`
(`df.loc[df[col_customer] == customer_id, [col_product]].drop_duplicates()`). -/
def boughtBy (rows : List SRow) (c : String) : List String :=
  dedupFirst ((rows.filter fun r => r.cust == c).map (·.pid))

/-- `drop_duplicates(subset=["product_id"], keep="first")`: keep the first
suggestion for each suggested product.  The `Nat` argument is recursion fuel,
always sufficient at `l.length` since each step removes at least the head. -/
def dedupKeepFirstAux : Nat → List Suggestion → List Suggestion
  | 0, _ => []
  | _, [] => []
  | Nat.succ n, s :: rest =>
      s :: dedupKeepFirstAux n (rest.filter fun t => t.product_id != s.product_id)

def dedupKeepFirst (l : List Suggestion) : List Suggestion :=
  dedupKeepFirstAux l.length l

/-- `suggest_cross_sell_for_customer` (`app.py` lines 368-427): keep the rules
whose antecedent `a` was bought by the customer and which pass the support /
confidence / lift thresholds, score them `weight_lift·lift +
weight_conf·conf_ab`, suggest the consequent `b`, sort by score descending,
deduplicate by suggested product keeping the best and return the first
`topn`. -/
def suggestCrossSellForCustomer (rows : List SRow) (rules : List AssocRule)
    (c : String) (topn : Nat) (minSupport minConf minLift wLift wConf : ℚ) :
    List Suggestion :=
  let bought := boughtBy rows c
  if bought.isEmpty then []
  else
    let strong := rules.filter fun ru =>
      bought.contains ru.a && decide (minSupport ≤ ru.support) &&
        decide (minConf ≤ ru.conf_ab) && decide (minLift ≤ ru.lift)
    if strong.isEmpty then []
    else
      let scored := strong.map fun ru =>
        ({ product_id := ru.b, source_product := ru.a,
           score := wLift * ru.lift + wConf * ru.conf_ab } : Suggestion)
      let sorted := scored.insertionSort fun s t => t.score ≤ s.score
      (dedupKeepFirst sorted).take topn

theorem mem_dedupKeepFirstAux :
    ∀ (n : Nat) (l : List Suggestion) (s : Suggestion),
      s ∈ dedupKeepFirstAux n l → s ∈ l := by
  intro n
  induction n with
  | zero =>
    intro l s h
    rw [show dedupKeepFirstAux 0 l = [] by cases l <;> rfl] at h
    cases h
  | succ n ih =>
    intro l s h
    cases l with
    | nil => cases h
    | cons a rest =>
      rcases List.mem_cons.1 h with rfl | h'
      · exact List.mem_cons_self _ _
      · exact List.mem_cons_of_mem _ (List.mem_filter.1 (ih _ _ h')).1

/-- Sales rows for the direction-sensitivity scenario: customer `A` bought
`P1` and `P2` together in order `1`; customer `B` bought only `P2`
(order `2`). -/
def demoXRows : List SRow :=
  [⟨"1", "A", "P1"⟩, ⟨"1", "A", "P2"⟩, ⟨"2", "B", "P2"⟩]

theorem buildProductPairs_demoXRows :
    buildProductPairs demoXRows =
      [{ a := "P1", b := "P2", co_count := 1,
         support := 1/2, conf_ab := 1, conf_ba := 1/2, lift := 1 }] := by
  have hcand : candidatePairs demoXRows = [("P1", "P2")] := by decide
  have hco : coCount demoXRows "P1" "P2" = 1 := by decide
  have ho1 : ordersWith demoXRows "P1" = 1 := by decide
  have ho2 : ordersWith demoXRows "P2" = 2 := by decide
  have ht : ordersTot demoXRows = 2 := by decide
  unfold buildProductPairs
  rw [hcand]
  show List.insertionSort _ (List.filterMap _ [("P1", "P2")]) = _
  rw [List.filterMap_cons, List.filterMap_nil]
  unfold mkRule
  rw [hco, ho1, ho2, ht]
  norm_num [List.insertionSort, List.orderedInsert]

theorem suggest_demoXRows_A :
    suggestCrossSellForCustomer demoXRows (buildProductPairs demoXRows)
      "A" 8 0 0 0 (6/10) (4/10) =
      [{ product_id := "P2", source_product := "P1", score := 1 }] := by
  rw [buildProductPairs_demoXRows]
  unfold suggestCrossSellForCustomer
  have hb : boughtBy demoXRows "A" = ["P1", "P2"] := by decide
  rw [hb]
  have hcond :
      (["P1", "P2"].contains "P1" && decide ((0 : ℚ) ≤ 1/2) &&
        decide ((0 : ℚ) ≤ 1) && decide ((0 : ℚ) ≤ 1)) = true := by
    norm_num
  simp only [List.isEmpty_cons, List.filter, hcond]
  norm_num [List.insertionSort, List.orderedInsert, dedupKeepFirst, dedupKeepFirstAux]

/-- C10: cross-sell suggestions use association rules only in the canonical
`a → b` direction: every suggestion's source product was bought by the
customer and is the `a` member of a rule passing the thresholds.  In the
concrete scenario, customer `B` bought only `P2`, which occurs solely as the
`b` member of the single mined rule `(P1, P2)` (whose `conf_ba = 1/2` is
recorded), and `suggest_cross_sell_for_customer` returns no suggestion for
`B` even with all thresholds at zero. -/
theorem cross_sell_forward_only :
    (∀ (rows : List SRow) (rules : List AssocRule) (c : String) (topn : Nat)
        (mS mC mL wL wC : ℚ),
      ∀ s ∈ suggestCrossSellForCustomer rows rules c topn mS mC mL wL wC,
        s.source_product ∈ boughtBy rows c ∧
        ∃ ru ∈ rules, ru.a = s.source_product ∧ ru.b = s.product_id ∧
          mS ≤ ru.support ∧ mC ≤ ru.conf_ab ∧ mL ≤ ru.lift) ∧
    boughtBy demoXRows "B" = ["P2"] ∧
    (buildProductPairs demoXRows).map (fun ru => (ru.a, ru.b)) = [("P1", "P2")] ∧
    (buildProductPairs demoXRows).map (fun ru => ru.conf_ba) = [1/2] ∧
    suggestCrossSellForCustomer demoXRows (buildProductPairs demoXRows)
      "B" 8 0 0 0 (6/10) (4/10) = [] := by
  refine ⟨?_, by decide, ?_, ?_, ?_⟩
  · intro rows rules c topn mS mC mL wL wC s hs
    simp only [suggestCrossSellForCustomer] at hs
    split at hs
    · cases hs
    · split at hs
      · cases hs
      · have h1 := mem_dedupKeepFirstAux _ _ _ (List.mem_of_mem_take hs)
        rw [List.mem_insertionSort] at h1
        rcases List.mem_map.1 h1 with ⟨ru, hru, rfl⟩
        have hmem := (List.mem_filter.1 hru).1
        have hcond := (List.mem_filter.1 hru).2
        simp only [Bool.and_eq_true, decide_eq_true_eq] at hcond
        have hmemB : ru.a ∈ boughtBy rows c := by simpa using hcond.1.1.1
        exact ⟨hmemB, ru, hmem, rfl, rfl, hcond.1.1.2, hcond.1.2, hcond.2⟩
  · rw [buildProductPairs_demoXRows]; simp
  · rw [buildProductPairs_demoXRows]; norm_num
  · decide

/-- Witness for C10: the universally quantified part applied to customer `A`,
whose suggestion `P2` does come from a bought antecedent `P1`. -/
theorem cross_sell_forward_only_witness :
    ({ product_id := "P2", source_product := "P1", score := 1 } :
        Suggestion).source_product ∈ boughtBy demoXRows "A" ∧
    ∃ ru ∈ buildProductPairs demoXRows,
      ru.a = "P1" ∧ ru.b = "P2" ∧ (0 : ℚ) ≤ ru.support ∧
        (0 : ℚ) ≤ ru.conf_ab ∧ (0 : ℚ) ≤ ru.lift := by
  have h := cross_sell_forward_only.1 demoXRows (buildProductPairs demoXRows)
    "A" 8 0 0 0 (6/10) (4/10)
    { product_id := "P2", source_product := "P1", score := 1 }
    (by rw [suggest_demoXRows_A]; exact List.mem_singleton.2 rfl)
  exact ⟨h.1, h.2⟩

end App

namespace Matcher

/-!
## Text normalizer (`matcher/matcher.py`, `_norm_txt`, lines 17-25)

The Python pipeline over a string `s`:
  1. `s.lower()`                       — lowercase;
  2. `.replace("\n", " ")`             — newlines become spaces;
  3. `re.sub(r"\s+", " ", s)`          — collapse whitespace runs;
  4. `s.translate(...string.punctuation)` — delete punctuation characters;
  5. `re.sub(r"\b(cm|mm|ml|lt|pz|conf|cf|kg|gr|ø|diam|x)\b", " ", s)`
                                        — unit tokens (as whole words) → space;
  6. `re.sub(r"\s+", " ", s).strip()`  — collapse again and trim.
Characters are modelled over the ASCII fragments of `str.lower`, `\s` and
`\w` (extended with the letter `ø`, which occurs in the token list); all
concrete inputs below are ASCII, where Python and this model agree.
-/

/-- The ASCII case table of `str.lower`. -/
def asciiCaseMap : List (Char × Char) :=
  "ABCDEFGHIJKLMNOPQRSTUVWXYZ".toList.zip "abcdefghijklmnopqrstuvwxyz".toList

/-- `str.lower` per character (ASCII): an upper-case letter maps to its
lower-case counterpart, everything else is unchanged. -/
def pyLowerChar (c : Char) : Char :=
  match asciiCaseMap.lookup c with
  | some l => l
  | none => c

/-- Python `\s` (ASCII): space, tab, newline, carriage return, vertical tab,
form feed. -/
def isSpaceChar (c : Char) : Bool :=
  c = ' ' || c = '\t' || c = '\n' || c = '\r' || c = '\x0b' || c = '\x0c'

/-- `string.punctuation`. -/
def punctChars : List Char :=
  "!\x22#$%&\x27()*+,-./:;<=>?@[\\]^_\x60\x7b|\x7d~".toList

def isPunct (c : Char) : Bool := punctChars.contains c

/-- Python `\w` (ASCII letters, digits, underscore), extended with `ø` which
appears in the unit-token alternation. -/
def isWordChar (c : Char) : Bool :=
  ('a' ≤ c && c ≤ 'z') || ('A' ≤ c && c ≤ 'Z') || ('0' ≤ c && c ≤ '9') ||
    c = '_' || c = 'ø'

/-- Step 2: `replace("\n", " ")`. -/
def replNlChar (c : Char) : Char := if c = '\n' then ' ' else c

/-- Steps 3/6: `re.sub(r"\s+", " ", ·)` — every maximal whitespace run becomes
a single space.  The flag records whether the previous character was
whitespace (in which case the replacement space was already emitted). -/
def collapseAux : Bool → List Char → List Char
  | _, [] => []
  | prevWs, c :: cs =>
    if isSpaceChar c then
      if prevWs then collapseAux true cs else ' ' :: collapseAux true cs
    else c :: collapseAux false cs

def collapseWs (s : List Char) : List Char := collapseAux false s

/-- The unit/measure tokens of step 5. -/
def unitTokens : List (List Char) :=
  ["cm", "mm", "ml", "lt", "pz", "conf", "cf", "kg", "gr", "ø", "diam", "x"].map
    String.toList

/-- Since the tokens consist of word characters only, `\btok\b` matches
exactly the maximal word-character runs equal to `tok`; a matched run is
replaced by a single space. -/
def emitRun (w : List Char) : List Char :=
  if unitTokens.contains w then [' '] else w

/-- Step 5 scanner: `cur` accumulates the current word-character run
(reversed). -/
def removeTokensAux : List Char → List Char → List Char
  | cur, [] => emitRun cur.reverse
  | cur, c :: cs =>
    if isWordChar c then removeTokensAux (c :: cur) cs
    else emitRun cur.reverse ++ c :: removeTokensAux [] cs

def removeTokens (s : List Char) : List Char := removeTokensAux [] s

/-- `str.strip()` (leading part). -/
def trimL (s : List Char) : List Char := s.dropWhile isSpaceChar

/-- `str.strip()` (trailing part). -/
def trimR (s : List Char) : List Char := (s.reverse.dropWhile isSpaceChar).reverse

def pyStripChars (s : List Char) : List Char := trimR (trimL s)

/-- The whole `_norm_txt` pipeline on a character list. -/
def normChars (s : List Char) : List Char :=
  pyStripChars (collapseWs (removeTokens
    ((collapseWs ((s.map pyLowerChar).map replNlChar)).filter fun c => !isPunct c)))

/-- `_norm_txt` on a Python `str`. -/
def normTxt (s : String) : String := (normChars s.toList).asString

/-- A Python value passed to `_norm_txt`: a `str` or anything else
(the `isinstance(s, str)` guard). -/
inductive PyVal where
  | str (s : String)
  | nonStr

/-- `_norm_txt` including the non-string guard: `if not isinstance(s, str):
return ""`. -/
def normTxtVal : PyVal → String
  | .str s => normTxt s
  | .nonStr => ""

end Matcher

namespace Matcher

/-! ### Idempotence infrastructure for the normalizer (claim C7) -/

theorem mem_of_lookup_eq_some {l : List (Char × Char)} {c v : Char}
    (h : l.lookup c = some v) : (c, v) ∈ l := by
  induction l with
  | nil => cases h
  | cons p t ih =>
    rcases p with ⟨k, w⟩
    rw [List.lookup] at h
    split at h
    · next heq =>
      cases h
      have hk : c = k := by simpa using heq
      subst hk
      exact List.mem_cons_self _ _
    · exact List.mem_cons_of_mem _ (ih h)

theorem pyLowerChar_of_lookup_some {c l : Char}
    (h : asciiCaseMap.lookup c = some l) : pyLowerChar c = l := by
  unfold pyLowerChar
  rw [h]

theorem pyLowerChar_of_lookup_none {c : Char}
    (h : asciiCaseMap.lookup c = none) : pyLowerChar c = c := by
  unfold pyLowerChar
  rw [h]

theorem pyLowerChar_idem (c : Char) :
    pyLowerChar (pyLowerChar c) = pyLowerChar c := by
  cases h : asciiCaseMap.lookup c with
  | none => rw [pyLowerChar_of_lookup_none h, pyLowerChar_of_lookup_none h]
  | some l =>
    have hmem : (c, l) ∈ asciiCaseMap := mem_of_lookup_eq_some h
    have hnone : ∀ p ∈ asciiCaseMap, asciiCaseMap.lookup p.2 = none := by decide
    rw [pyLowerChar_of_lookup_some h,
      pyLowerChar_of_lookup_none (hnone (c, l) hmem)]

theorem pyLowerChar_space : pyLowerChar ' ' = ' ' := by decide

/-- All characters of `s` are fixed by lowering. -/
def LowerFixed (s : List Char) : Prop := ∀ c ∈ s, pyLowerChar c = c

/-- The only whitespace character occurring in `s` is the plain space. -/
def SpacesOnly (s : List Char) : Prop := ∀ c ∈ s, isSpaceChar c = true → c = ' '

/-- No punctuation character occurs in `s`. -/
def NoPunct (s : List Char) : Prop := ∀ c ∈ s, isPunct c = false

/-- No two adjacent whitespace characters. -/
def noSS (a b : Char) : Prop := ¬(isSpaceChar a = true ∧ isSpaceChar b = true)

def NoTwoSpaces (s : List Char) : Prop := List.Chain' noSS s

/-- The first character, if any, is not whitespace. -/
def HeadNotSpace (s : List Char) : Prop := ∀ c ∈ s.head?, isSpaceChar c = false

theorem mem_collapseAux {c : Char} (s : List Char) :
    ∀ b, c ∈ collapseAux b s → (c ∈ s ∧ isSpaceChar c = false) ∨ c = ' ' := by
  induction s with
  | nil => intro b h; cases h
  | cons a t ih =>
    intro b h
    unfold collapseAux at h
    by_cases ha : isSpaceChar a = true
    · rw [if_pos ha] at h
      have key : c ∈ collapseAux true t ∨ c = ' ' := by
        cases b with
        | true => exact Or.inl h
        | false =>
          rcases List.mem_cons.1 h with rfl | h'
          · exact Or.inr rfl
          · exact Or.inl h'
      rcases key with h' | h'
      · rcases ih true h' with ⟨h1, h2⟩ | h3
        · exact Or.inl ⟨List.mem_cons_of_mem _ h1, h2⟩
        · exact Or.inr h3
      · exact Or.inr h'
    · rw [if_neg ha] at h
      rcases List.mem_cons.1 h with rfl | h'
      · exact Or.inl ⟨List.mem_cons_self _ _, Bool.not_eq_true _ ▸ by simpa using ha⟩
      · rcases ih false h' with ⟨h1, h2⟩ | h3
        · exact Or.inl ⟨List.mem_cons_of_mem _ h1, h2⟩
        · exact Or.inr h3

theorem mem_emitRun {c : Char} {w : List Char} (h : c ∈ emitRun w) :
    c ∈ w ∨ c = ' ' := by
  unfold emitRun at h
  split at h
  · rcases List.mem_singleton.1 h with rfl
    exact Or.inr rfl
  · exact Or.inl h

theorem mem_removeTokensAux {c : Char} (s : List Char) :
    ∀ cur, c ∈ removeTokensAux cur s → c ∈ cur ∨ c ∈ s ∨ c = ' ' := by
  induction s with
  | nil =>
    intro cur h
    rcases mem_emitRun (by simpa [removeTokensAux] using h) with h' | h'
    · exact Or.inl (List.mem_reverse.1 h')
    · exact Or.inr (Or.inr h')
  | cons a t ih =>
    intro cur h
    unfold removeTokensAux at h
    split at h
    · rcases ih (a :: cur) h with h' | h' | h'
      · rcases List.mem_cons.1 h' with rfl | h''
        · exact Or.inr (Or.inl (List.mem_cons_self _ _))
        · exact Or.inl h''
      · exact Or.inr (Or.inl (List.mem_cons_of_mem _ h'))
      · exact Or.inr (Or.inr h')
    · rcases List.mem_append.1 h with h' | h'
      · rcases mem_emitRun h' with h'' | h''
        · exact Or.inl (List.mem_reverse.1 h'')
        · exact Or.inr (Or.inr h'')
      · rcases List.mem_cons.1 h' with rfl | h''
        · exact Or.inr (Or.inl (List.mem_cons_self _ _))
        · rcases ih [] h'' with h3 | h3 | h3
          · cases h3
          · exact Or.inr (Or.inl (List.mem_cons_of_mem _ h3))
          · exact Or.inr (Or.inr h3)

theorem mem_trimL {c : Char} {s : List Char} (h : c ∈ trimL s) : c ∈ s :=
  (List.dropWhile_sublist _).mem h

theorem mem_trimR {c : Char} {s : List Char} (h : c ∈ trimR s) : c ∈ s := by
  unfold trimR at h
  have h1 : c ∈ s.reverse.dropWhile isSpaceChar := List.mem_reverse.1 h
  exact List.mem_reverse.1 ((List.dropWhile_sublist _).mem h1)

theorem mem_pyStripChars {c : Char} {s : List Char} (h : c ∈ pyStripChars s) :
    c ∈ s := mem_trimL (mem_trimR h)

end Matcher

namespace Matcher

theorem collapseAux_headNotSpace (s : List Char) :
    HeadNotSpace (collapseAux true s) := by
  induction s with
  | nil => intro c hc; cases hc
  | cons a t ih =>
    by_cases ha : isSpaceChar a = true
    · rw [show collapseAux true (a :: t) = collapseAux true t by
        simp [collapseAux, ha]]
      exact ih
    · rw [show collapseAux true (a :: t) = a :: collapseAux false t by
        simp [collapseAux, ha]]
      intro c hc
      rw [List.head?_cons, Option.mem_some_iff] at hc
      subst hc
      simpa using ha

theorem collapseAux_noTwoSpaces (s : List Char) :
    ∀ b, NoTwoSpaces (collapseAux b s) := by
  induction s with
  | nil => intro b; exact List.chain'_nil
  | cons a t ih =>
    intro b
    by_cases ha : isSpaceChar a = true
    · cases b with
      | true =>
        rw [show collapseAux true (a :: t) = collapseAux true t by
          simp [collapseAux, ha]]
        exact ih true
      | false =>
        rw [show collapseAux false (a :: t) = ' ' :: collapseAux true t by
          simp [collapseAux, ha]]
        unfold NoTwoSpaces
        rw [List.chain'_cons']
        refine ⟨?_, ih true⟩
        intro c hc
        have hcn := collapseAux_headNotSpace t c hc
        exact fun hcon => absurd hcon.2 (by simp [hcn])
    · have key : collapseAux b (a :: t) = a :: collapseAux false t := by
        cases b <;> simp [collapseAux, ha]
      rw [key]
      unfold NoTwoSpaces
      rw [List.chain'_cons']
      refine ⟨?_, ih false⟩
      intro c _
      exact fun hcon => absurd hcon.1 (by simpa using ha)

theorem collapseAux_spacesOnly (s : List Char) (b : Bool) :
    SpacesOnly (collapseAux b s) := by
  intro c hc hsp
  rcases mem_collapseAux s b hc with ⟨_, h2⟩ | h3
  · rw [h2] at hsp; cases hsp
  · exact h3

theorem trimL_eq_self {s : List Char} (h : HeadNotSpace s) : trimL s = s := by
  cases s with
  | nil => rfl
  | cons a t =>
    have ha : isSpaceChar a = false := h a (by simp)
    simp [trimL, List.dropWhile_cons, ha]

theorem trimR_eq_self {s : List Char} (h : HeadNotSpace s.reverse) :
    trimR s = s := by
  show (trimL s.reverse).reverse = s
  rw [trimL_eq_self h, List.reverse_reverse]

theorem pyStripChars_eq_self {s : List Char} (h1 : HeadNotSpace s)
    (h2 : HeadNotSpace s.reverse) : pyStripChars s = s := by
  unfold pyStripChars
  rw [trimL_eq_self h1, trimR_eq_self h2]

theorem collapseAux_eq_self (s : List Char) (h1 : SpacesOnly s)
    (h2 : NoTwoSpaces s) :
    collapseAux false s = s ∧ (HeadNotSpace s → collapseAux true s = s) := by
  induction s with
  | nil => exact ⟨rfl, fun _ => rfl⟩
  | cons a t ih =>
    have h1t : SpacesOnly t := fun c hc => h1 c (List.mem_cons_of_mem _ hc)
    have h2t : NoTwoSpaces t := h2.tail
    obtain ⟨ihf, iht⟩ := ih h1t h2t
    by_cases ha : isSpaceChar a = true
    · have haeq : a = ' ' := h1 a (List.mem_cons_self _ _) ha
      constructor
      · have ht : HeadNotSpace t := by
          cases t with
          | nil => intro c hc; cases hc
          | cons b u =>
            intro c hc
            rw [List.head?_cons, Option.mem_some_iff] at hc
            subst hc
            have hR : noSS a b := (List.chain'_cons.1 h2).1
            by_contra hb
            exact hR ⟨ha, by simpa using hb⟩
        rw [show collapseAux false (a :: t) = ' ' :: collapseAux true t by
          simp [collapseAux, ha]]
        rw [iht ht, haeq]
      · intro hh
        exact absurd (hh a (by simp)) (by simp [ha])
    · have key : ∀ b, collapseAux b (a :: t) = a :: collapseAux false t := by
        intro b; cases b <;> simp [collapseAux, ha]
      constructor
      · rw [key false, ihf]
      · intro _; rw [key true, ihf]

theorem map_pyLowerChar_eq_self {s : List Char} (h : LowerFixed s) :
    s.map pyLowerChar = s := by
  rw [List.map_congr_left h]
  simp

theorem map_replNlChar_eq_self {s : List Char} (h : SpacesOnly s) :
    s.map replNlChar = s := by
  have : ∀ c ∈ s, replNlChar c = c := by
    intro c hc
    unfold replNlChar
    split
    · next hq =>
      subst hq
      exact absurd (h _ hc (by decide)) (by decide)
    · rfl
  rw [List.map_congr_left this]
  simp

theorem filter_punct_eq_self {s : List Char} (h : NoPunct s) :
    (s.filter fun c => !isPunct c) = s :=
  List.filter_eq_self.2 fun c hc => by simp [h c hc]

end Matcher

namespace Matcher

theorem space_not_word {c : Char} (h : isSpaceChar c = true) :
    isWordChar c = false := by
  simp only [isSpaceChar, Bool.or_eq_true, decide_eq_true_eq] at h
  rcases h with ((((h | h) | h) | h) | h) | h <;> subst h <;> decide

/-- The maximal word-character runs of `s` (scanner with reversed
accumulator `cur`). -/
def wordRunsAux : List Char → List Char → List (List Char)
  | cur, [] => if cur.isEmpty then [] else [cur.reverse]
  | cur, c :: cs =>
    if isWordChar c then wordRunsAux (c :: cur) cs
    else if cur.isEmpty then wordRunsAux [] cs
    else cur.reverse :: wordRunsAux [] cs

def wordRuns (s : List Char) : List (List Char) := wordRunsAux [] s

/-- No maximal word-character run of `s` is a unit token, i.e. step 5 has
nothing left to replace. -/
def NoTok (s : List Char) : Prop :=
  ∀ w ∈ wordRuns s, unitTokens.contains w = false

theorem isWordChar_space : isWordChar ' ' = false := by decide

theorem wordRunsAux_append_word (w : List Char) :
    ∀ (cur rest : List Char), (∀ c ∈ w, isWordChar c = true) →
      wordRunsAux cur (w ++ rest) = wordRunsAux (w.reverse ++ cur) rest := by
  induction w with
  | nil => intro cur rest _; simp
  | cons c w' ih =>
    intro cur rest hw
    have hc : isWordChar c = true := hw c (List.mem_cons_self _ _)
    rw [List.cons_append]
    rw [show wordRunsAux cur (c :: (w' ++ rest)) =
        wordRunsAux (c :: cur) (w' ++ rest) by simp [wordRunsAux, hc]]
    rw [ih (c :: cur) rest fun d hd => hw d (List.mem_cons_of_mem _ hd)]
    congr 1
    simp

theorem wordRunsAux_all_space (t : List Char) :
    ∀ cur, (∀ c ∈ t, isSpaceChar c = true) →
      wordRunsAux cur t = wordRunsAux cur [] := by
  induction t with
  | nil => intro cur _; rfl
  | cons c cs ih =>
    intro cur h
    have hw : isWordChar c = false :=
      space_not_word (h c (List.mem_cons_self _ _))
    have ht : ∀ d ∈ cs, isSpaceChar d = true :=
      fun d hd => h d (List.mem_cons_of_mem _ hd)
    cases cur with
    | nil =>
      rw [show wordRunsAux [] (c :: cs) = wordRunsAux [] cs by
        simp [wordRunsAux, hw]]
      exact ih [] ht
    | cons d ds =>
      rw [show wordRunsAux (d :: ds) (c :: cs) =
          (d :: ds).reverse :: wordRunsAux [] cs by simp [wordRunsAux, hw]]
      rw [ih [] ht]
      rfl

theorem wordRuns_of_all_word {w : List Char}
    (hw : ∀ c ∈ w, isWordChar c = true) :
    wordRuns w = if w.isEmpty then [] else [w] := by
  have h := wordRunsAux_append_word w [] [] hw
  rw [List.append_nil, List.append_nil] at h
  show wordRunsAux [] w = _
  rw [h]
  show (if w.reverse.isEmpty then [] else [w.reverse.reverse]) = _
  cases w with
  | nil => rfl
  | cons a t => simp

theorem wordRuns_removeTokensAux (s : List Char) :
    ∀ cur, (∀ c ∈ cur, isWordChar c = true) →
      wordRuns (removeTokensAux cur s) =
        (wordRunsAux cur s).filter fun w => !unitTokens.contains w := by
  induction s with
  | nil =>
    intro cur hcur
    show wordRunsAux [] (emitRun cur.reverse) = _
    by_cases hcur0 : cur.isEmpty = true
    · have hce : cur = [] := List.isEmpty_iff.1 hcur0
      subst hce
      decide
    · by_cases htok : cur.reverse ∈ unitTokens
      · rw [show emitRun cur.reverse = [' '] by simp [emitRun, htok]]
        rw [show wordRunsAux cur [] = [cur.reverse] by simp [wordRunsAux, hcur0]]
        rw [show wordRunsAux [] [' '] = [] by decide]
        simp [List.filter, htok]
      · rw [show emitRun cur.reverse = cur.reverse by simp [emitRun, htok]]
        have hwr : ∀ c ∈ cur.reverse, isWordChar c = true :=
          fun c hcm => hcur c (List.mem_reverse.1 hcm)
        have hruns := wordRuns_of_all_word hwr
        rw [show wordRunsAux [] cur.reverse = wordRuns cur.reverse from rfl, hruns]
        rw [show wordRunsAux cur [] = [cur.reverse] by simp [wordRunsAux, hcur0]]
        have hrev0 : cur.reverse.isEmpty = false := by
          cases cur with
          | nil => simp at hcur0
          | cons a t => simp
        rw [hrev0]
        simp [List.filter, htok]
  | cons c cs ih =>
    intro cur hcur
    by_cases hc : isWordChar c = true
    · rw [show removeTokensAux cur (c :: cs) = removeTokensAux (c :: cur) cs by
        simp [removeTokensAux, hc]]
      rw [show wordRunsAux cur (c :: cs) = wordRunsAux (c :: cur) cs by
        simp [wordRunsAux, hc]]
      refine ih (c :: cur) ?_
      intro d hd
      rcases List.mem_cons.1 hd with rfl | hd'
      · exact hc
      · exact hcur d hd'
    · rw [show removeTokensAux cur (c :: cs) =
          emitRun cur.reverse ++ c :: removeTokensAux [] cs by
        simp [removeTokensAux, hc]]
      have hnil : ∀ d ∈ ([] : List Char), isWordChar d = true :=
        fun d hd => absurd hd (List.not_mem_nil d)
      by_cases hcur0 : cur.isEmpty = true
      · have hce : cur = [] := List.isEmpty_iff.1 hcur0
        subst hce
        rw [show emitRun ([] : List Char).reverse = [] by decide, List.nil_append]
        rw [show wordRuns (c :: removeTokensAux [] cs) =
            wordRuns (removeTokensAux [] cs) by simp [wordRuns, wordRunsAux, hc]]
        rw [show wordRunsAux ([] : List Char) (c :: cs) = wordRunsAux [] cs by
          simp [wordRunsAux, hc]]
        exact ih [] hnil
      · by_cases htok : cur.reverse ∈ unitTokens
        · rw [show emitRun cur.reverse = [' '] by simp [emitRun, htok]]
          rw [show ([' '] ++ c :: removeTokensAux [] cs : List Char) =
              ' ' :: c :: removeTokensAux [] cs from rfl]
          rw [show wordRuns (' ' :: c :: removeTokensAux [] cs) =
              wordRuns (removeTokensAux [] cs) by
            simp [wordRuns, wordRunsAux, hc, isWordChar_space]]
          rw [show wordRunsAux cur (c :: cs) =
              cur.reverse :: wordRunsAux [] cs by simp [wordRunsAux, hc, hcur0]]
          rw [List.filter_cons]
          rw [show (!unitTokens.contains cur.reverse) = false by simp [htok]]
          rw [if_neg (by simp)]
          exact ih [] hnil
        · rw [show emitRun cur.reverse = cur.reverse by simp [emitRun, htok]]
          have hwr : ∀ d ∈ cur.reverse, isWordChar d = true :=
            fun d hdm => hcur d (List.mem_reverse.1 hdm)
          have hJ := wordRunsAux_append_word cur.reverse []
            (c :: removeTokensAux [] cs) hwr
          rw [List.reverse_reverse, List.append_nil] at hJ
          rw [show wordRuns (cur.reverse ++ c :: removeTokensAux [] cs) =
              wordRunsAux [] (cur.reverse ++ c :: removeTokensAux [] cs) from rfl]
          rw [hJ]
          rw [show wordRunsAux cur (c :: removeTokensAux [] cs) =
              cur.reverse :: wordRunsAux [] (removeTokensAux [] cs) by
            simp [wordRunsAux, hc, hcur0]]
          rw [show wordRunsAux cur (c :: cs) =
              cur.reverse :: wordRunsAux [] cs by simp [wordRunsAux, hc, hcur0]]
          rw [List.filter_cons]
          rw [show (!unitTokens.contains cur.reverse) = true by simp [htok]]
          rw [if_pos (by simp)]
          rw [show wordRunsAux ([] : List Char) (removeTokensAux [] cs) =
              wordRuns (removeTokensAux [] cs) from rfl]
          rw [ih [] hnil]

end Matcher

namespace Matcher

theorem removeTokensAux_eq_self (s : List Char) :
    ∀ cur, (∀ c ∈ cur, isWordChar c = true) →
      (∀ w ∈ wordRunsAux cur s, unitTokens.contains w = false) →
      removeTokensAux cur s = cur.reverse ++ s := by
  induction s with
  | nil =>
    intro cur _ hnt
    show emitRun cur.reverse = cur.reverse ++ []
    rw [List.append_nil]
    by_cases hcur0 : cur.isEmpty = true
    · have hce : cur = [] := List.isEmpty_iff.1 hcur0
      subst hce
      decide
    · have hmem : cur.reverse ∈ wordRunsAux cur [] := by
        simp [wordRunsAux, hcur0]
      have hnm : cur.reverse ∉ unitTokens := by simpa using hnt _ hmem
      simp [emitRun, hnm]
  | cons c cs ih =>
    intro cur hcur hnt
    by_cases hc : isWordChar c = true
    · rw [show removeTokensAux cur (c :: cs) = removeTokensAux (c :: cur) cs by
        simp [removeTokensAux, hc]]
      rw [ih (c :: cur)
        (by
          intro d hd
          rcases List.mem_cons.1 hd with rfl | hd'
          · exact hc
          · exact hcur d hd')
        (by
          intro w hw
          exact hnt w (by simpa [wordRunsAux, hc] using hw))]
      simp
    · rw [show removeTokensAux cur (c :: cs) =
          emitRun cur.reverse ++ c :: removeTokensAux [] cs by
        simp [removeTokensAux, hc]]
      have hnil : ∀ d ∈ ([] : List Char), isWordChar d = true :=
        fun d hd => absurd hd (List.not_mem_nil d)
      have hrec : removeTokensAux [] cs = cs := by
        have hh := ih [] hnil ?_
        · simpa using hh
        · intro w hw
          apply hnt w
          by_cases hcur0 : cur.isEmpty = true
          · simpa [wordRunsAux, hc, hcur0] using hw
          · rw [show wordRunsAux cur (c :: cs) =
                cur.reverse :: wordRunsAux [] cs by simp [wordRunsAux, hc, hcur0]]
            exact List.mem_cons_of_mem _ hw
      rw [hrec]
      by_cases hcur0 : cur.isEmpty = true
      · have hce : cur = [] := List.isEmpty_iff.1 hcur0
        subst hce
        rw [show emitRun ([] : List Char).reverse = [] by decide]
        rfl
      · have hmem : cur.reverse ∈ wordRunsAux cur (c :: cs) := by
          rw [show wordRunsAux cur (c :: cs) =
              cur.reverse :: wordRunsAux [] cs by simp [wordRunsAux, hc, hcur0]]
          exact List.mem_cons_self _ _
        have hnm : cur.reverse ∉ unitTokens := by simpa using hnt _ hmem
        rw [show emitRun cur.reverse = cur.reverse by simp [emitRun, hnm]]

end Matcher

namespace Matcher

theorem wordRunsAux_collapseAux (s : List Char) :
    ∀ cur, (wordRunsAux cur (collapseAux false s) = wordRunsAux cur s) ∧
      (wordRunsAux [] (collapseAux true s) = wordRunsAux [] s) := by
  induction s with
  | nil => intro cur; exact ⟨rfl, rfl⟩
  | cons c cs ih =>
    intro cur
    by_cases hc : isSpaceChar c = true
    · have hw : isWordChar c = false := space_not_word hc
      constructor
      · rw [show collapseAux false (c :: cs) = ' ' :: collapseAux true cs by
          simp [collapseAux, hc]]
        by_cases hcur0 : cur.isEmpty = true
        · rw [show wordRunsAux cur (' ' :: collapseAux true cs) =
              wordRunsAux [] (collapseAux true cs) by
            simp [wordRunsAux, isWordChar_space, hcur0,
              List.isEmpty_iff.1 hcur0]]
          rw [(ih []).2]
          rw [show wordRunsAux cur (c :: cs) = wordRunsAux [] cs by
            simp [wordRunsAux, hw, hcur0, List.isEmpty_iff.1 hcur0]]
        · rw [show wordRunsAux cur (' ' :: collapseAux true cs) =
              cur.reverse :: wordRunsAux [] (collapseAux true cs) by
            simp [wordRunsAux, isWordChar_space, hcur0]]
          rw [(ih []).2]
          rw [show wordRunsAux cur (c :: cs) =
              cur.reverse :: wordRunsAux [] cs by simp [wordRunsAux, hw, hcur0]]
      · rw [show collapseAux true (c :: cs) = collapseAux true cs by
          simp [collapseAux, hc]]
        rw [(ih []).2]
        rw [show wordRunsAux ([] : List Char) (c :: cs) = wordRunsAux [] cs by
          simp [wordRunsAux, hw]]
    · have hkey : ∀ b, collapseAux b (c :: cs) = c :: collapseAux false cs :=
        fun b => by cases b <;> simp [collapseAux, hc]
      by_cases hcw : isWordChar c = true
      · constructor
        · rw [hkey false]
          rw [show wordRunsAux cur (c :: collapseAux false cs) =
              wordRunsAux (c :: cur) (collapseAux false cs) by
            simp [wordRunsAux, hcw]]
          rw [(ih (c :: cur)).1]
          simp [wordRunsAux, hcw]
        · rw [hkey true]
          rw [show wordRunsAux ([] : List Char) (c :: collapseAux false cs) =
              wordRunsAux [c] (collapseAux false cs) by
            simp [wordRunsAux, hcw]]
          rw [(ih [c]).1]
          simp [wordRunsAux, hcw]
      · constructor
        · rw [hkey false]
          by_cases hcur0 : cur.isEmpty = true
          · rw [show wordRunsAux cur (c :: collapseAux false cs) =
                wordRunsAux [] (collapseAux false cs) by
              simp [wordRunsAux, hcw, hcur0, List.isEmpty_iff.1 hcur0]]
            rw [(ih []).1]
            rw [show wordRunsAux cur (c :: cs) = wordRunsAux [] cs by
              simp [wordRunsAux, hcw, hcur0, List.isEmpty_iff.1 hcur0]]
          · rw [show wordRunsAux cur (c :: collapseAux false cs) =
                cur.reverse :: wordRunsAux [] (collapseAux false cs) by
              simp [wordRunsAux, hcw, hcur0]]
            rw [(ih []).1]
            rw [show wordRunsAux cur (c :: cs) =
                cur.reverse :: wordRunsAux [] cs by simp [wordRunsAux, hcw, hcur0]]
        · rw [hkey true]
          rw [show wordRunsAux ([] : List Char) (c :: collapseAux false cs) =
              wordRunsAux [] (collapseAux false cs) by simp [wordRunsAux, hcw]]
          rw [(ih []).1]
          rw [show wordRunsAux ([] : List Char) (c :: cs) = wordRunsAux [] cs by
            simp [wordRunsAux, hcw]]

theorem wordRuns_trimL (s : List Char) : wordRuns (trimL s) = wordRuns s := by
  induction s with
  | nil => rfl
  | cons c cs ih =>
    by_cases hc : isSpaceChar c = true
    · rw [show trimL (c :: cs) = trimL cs by
        simp [trimL, List.dropWhile_cons, hc]]
      rw [ih]
      show _ = wordRunsAux [] (c :: cs)
      simp [wordRunsAux, space_not_word hc]
      rfl
    · rw [show trimL (c :: cs) = c :: cs by
        simp [trimL, List.dropWhile_cons, hc]]

theorem wordRunsAux_append_space (t : List Char)
    (ht : ∀ c ∈ t, isSpaceChar c = true) :
    ∀ (s cur : List Char), wordRunsAux cur (s ++ t) = wordRunsAux cur s := by
  intro s
  induction s with
  | nil => intro cur; rw [List.nil_append, wordRunsAux_all_space t cur ht]
  | cons c cs ih =>
    intro cur
    rw [List.cons_append]
    by_cases hc : isWordChar c = true
    · rw [show wordRunsAux cur (c :: (cs ++ t)) =
          wordRunsAux (c :: cur) (cs ++ t) by simp [wordRunsAux, hc]]
      rw [ih (c :: cur)]
      simp [wordRunsAux, hc]
    · by_cases hcur0 : cur.isEmpty = true
      · rw [show wordRunsAux cur (c :: (cs ++ t)) =
            wordRunsAux [] (cs ++ t) by
          simp [wordRunsAux, hc, hcur0, List.isEmpty_iff.1 hcur0]]
        rw [ih []]
        rw [show wordRunsAux cur (c :: cs) = wordRunsAux [] cs by
          simp [wordRunsAux, hc, hcur0, List.isEmpty_iff.1 hcur0]]
      · rw [show wordRunsAux cur (c :: (cs ++ t)) =
            cur.reverse :: wordRunsAux [] (cs ++ t) by
          simp [wordRunsAux, hc, hcur0]]
        rw [ih []]
        rw [show wordRunsAux cur (c :: cs) =
            cur.reverse :: wordRunsAux [] cs by simp [wordRunsAux, hc, hcur0]]

theorem wordRuns_trimR (s : List Char) : wordRuns (trimR s) = wordRuns s := by
  have hdecomp : trimR s ++ (s.reverse.takeWhile isSpaceChar).reverse = s := by
    unfold trimR
    rw [← List.reverse_append, List.takeWhile_append_dropWhile,
      List.reverse_reverse]
  have hws : ∀ c ∈ (s.reverse.takeWhile isSpaceChar).reverse,
      isSpaceChar c = true := by
    intro c hcm
    exact List.mem_takeWhile_imp (List.mem_reverse.1 hcm)
  conv_rhs => rw [← hdecomp]
  show wordRunsAux [] _ = wordRunsAux [] _
  rw [wordRunsAux_append_space _ hws (trimR s) []]

theorem noTok_pyStripChars {s : List Char} (h : NoTok s) :
    NoTok (pyStripChars s) := by
  unfold NoTok pyStripChars at *
  rw [wordRuns_trimR, wordRuns_trimL]
  exact h

theorem noTok_collapseWs {s : List Char} (h : NoTok s) :
    NoTok (collapseWs s) := by
  unfold NoTok collapseWs at *
  show ∀ w ∈ wordRunsAux [] (collapseAux false s), _
  rw [(wordRunsAux_collapseAux s []).1]
  exact h

theorem removeTokens_noTok (s : List Char) : NoTok (removeTokens s) := by
  unfold NoTok removeTokens
  intro w hw
  rw [wordRuns_removeTokensAux s []
    (fun d hd => absurd hd (List.not_mem_nil d))] at hw
  have hb := (List.mem_filter.1 hw).2
  simpa using hb

theorem removeTokens_eq_self {s : List Char} (h : NoTok s) :
    removeTokens s = s := by
  unfold removeTokens
  have hh := removeTokensAux_eq_self s []
    (fun d hd => absurd hd (List.not_mem_nil d)) h
  simpa using hh

end Matcher

namespace Matcher

theorem mem_collapseWs {c : Char} {s : List Char} (h : c ∈ collapseWs s) :
    (c ∈ s ∧ isSpaceChar c = false) ∨ c = ' ' := mem_collapseAux s false h

theorem mem_removeTokens {c : Char} {s : List Char} (h : c ∈ removeTokens s) :
    c ∈ s ∨ c = ' ' := by
  rcases mem_removeTokensAux s [] h with h' | h' | h'
  · exact absurd h' (List.not_mem_nil c)
  · exact Or.inl h'
  · exact Or.inr h'

theorem lowerFixed_normChars (s : List Char) : LowerFixed (normChars s) := by
  intro c hc
  unfold normChars at hc
  have h1 := mem_pyStripChars hc
  rcases mem_collapseWs h1 with ⟨h2, _⟩ | rfl
  · rcases mem_removeTokens h2 with h3 | rfl
    · have h4 := (List.mem_filter.1 h3).1
      rcases mem_collapseWs h4 with ⟨h5, _⟩ | rfl
      · rcases List.mem_map.1 h5 with ⟨d, hd, rfl⟩
        rcases List.mem_map.1 hd with ⟨e, _, rfl⟩
        unfold replNlChar
        split
        · exact pyLowerChar_space
        · exact pyLowerChar_idem e
      · exact pyLowerChar_space
    · exact pyLowerChar_space
  · exact pyLowerChar_space

theorem spacesOnly_normChars (s : List Char) : SpacesOnly (normChars s) := by
  intro c hc hsp
  have h1 := mem_pyStripChars hc
  rcases mem_collapseWs h1 with ⟨_, h2⟩ | rfl
  · rw [h2] at hsp; cases hsp
  · rfl

theorem noPunct_normChars (s : List Char) : NoPunct (normChars s) := by
  intro c hc
  have h1 := mem_pyStripChars hc
  rcases mem_collapseWs h1 with ⟨h2, _⟩ | rfl
  · rcases mem_removeTokens h2 with h3 | rfl
    · have hb := (List.mem_filter.1 h3).2
      simpa using hb
    · decide
  · decide

theorem chain'_dropWhile {R : Char → Char → Prop} {s : List Char}
    (p : Char → Bool) (h : List.Chain' R s) :
    List.Chain' R (s.dropWhile p) := by
  induction s with
  | nil => exact List.chain'_nil
  | cons a t ih =>
    rw [List.dropWhile_cons]
    split
    · exact ih h.tail
    · exact h

theorem noTwoSpaces_trimL {s : List Char} (h : NoTwoSpaces s) :
    NoTwoSpaces (trimL s) := chain'_dropWhile _ h

theorem noTwoSpaces_trimR {s : List Char} (h : NoTwoSpaces s) :
    NoTwoSpaces (trimR s) := by
  unfold NoTwoSpaces trimR at *
  rw [List.chain'_reverse]
  apply chain'_dropWhile
  rw [List.chain'_reverse]
  exact h

theorem noTwoSpaces_pyStrip {s : List Char} (h : NoTwoSpaces s) :
    NoTwoSpaces (pyStripChars s) := noTwoSpaces_trimR (noTwoSpaces_trimL h)

theorem trimR_decomp (s : List Char) :
    trimR s ++ (s.reverse.takeWhile isSpaceChar).reverse = s := by
  unfold trimR
  rw [← List.reverse_append, List.takeWhile_append_dropWhile,
    List.reverse_reverse]

theorem headNotSpace_trimL (s : List Char) : HeadNotSpace (trimL s) := by
  induction s with
  | nil => intro c hc; cases hc
  | cons a t ih =>
    unfold trimL at *
    rw [List.dropWhile_cons]
    split
    · exact ih
    · next ha =>
      intro c hc
      rw [List.head?_cons, Option.mem_some_iff] at hc
      subst hc
      simpa using ha

theorem headNotSpace_trimR {s : List Char} (h : HeadNotSpace s) :
    HeadNotSpace (trimR s) := by
  cases htr : trimR s with
  | nil => intro c hc; cases hc
  | cons a t =>
    intro c hc
    rw [List.head?_cons, Option.mem_some_iff] at hc
    subst hc
    apply h
    have hh : s.head? = some a := by
      rw [← trimR_decomp s, htr]
      rfl
    rw [hh]
    rfl

theorem headNotSpace_pyStrip (s : List Char) :
    HeadNotSpace (pyStripChars s) :=
  headNotSpace_trimR (headNotSpace_trimL s)

theorem lastNotSpace_pyStrip (s : List Char) :
    HeadNotSpace (pyStripChars s).reverse := by
  show HeadNotSpace (trimR (trimL s)).reverse
  unfold trimR
  rw [List.reverse_reverse]
  exact headNotSpace_trimL (trimL s).reverse

theorem noTwoSpaces_normChars (s : List Char) : NoTwoSpaces (normChars s) := by
  unfold normChars
  exact noTwoSpaces_pyStrip (collapseAux_noTwoSpaces _ false)

theorem noTok_normChars (s : List Char) : NoTok (normChars s) := by
  unfold normChars
  exact noTok_pyStripChars (noTok_collapseWs (removeTokens_noTok _))

theorem normChars_fixed {t : List Char}
    (hlf : LowerFixed t) (hso : SpacesOnly t) (hnp : NoPunct t)
    (hnts : NoTwoSpaces t) (hntk : NoTok t)
    (hh : HeadNotSpace t) (hl : HeadNotSpace t.reverse) :
    normChars t = t := by
  unfold normChars
  rw [map_pyLowerChar_eq_self hlf]
  rw [map_replNlChar_eq_self hso]
  rw [show collapseWs t = t from (collapseAux_eq_self t hso hnts).1]
  rw [filter_punct_eq_self hnp]
  rw [removeTokens_eq_self hntk]
  rw [show collapseWs t = t from (collapseAux_eq_self t hso hnts).1]
  exact pyStripChars_eq_self hh hl

theorem normChars_idem (s : List Char) :
    normChars (normChars s) = normChars s :=
  normChars_fixed (lowerFixed_normChars s) (spacesOnly_normChars s)
    (noPunct_normChars s) (noTwoSpaces_normChars s) (noTok_normChars s)
    (by unfold normChars; exact headNotSpace_pyStrip _)
    (by unfold normChars; exact lastNotSpace_pyStrip _)

/-- C7: the text normalizer `_norm_txt` is idempotent —
`_norm_txt(_norm_txt(x)) == _norm_txt(x)` for every string `x` — and for
every non-string input it returns the empty string. -/
theorem norm_txt_idempotent :
    (∀ x : String, normTxt (normTxt x) = normTxt x) ∧
    normTxtVal PyVal.nonStr = "" := by
  constructor
  · intro x
    unfold normTxt
    rw [show ((normChars x.toList).asString).toList = normChars x.toList from rfl]
    rw [normChars_idem]
  · rfl

/-- Witness for C7 at a concrete messy string. -/
theorem norm_txt_idempotent_witness :
    normTxt (normTxt "  Tubo PVC,\n  25 cm x GRIGIO  ") =
      normTxt "  Tubo PVC,\n  25 cm x GRIGIO  " :=
  norm_txt_idempotent.1 _

end Matcher

namespace Matcher

/-!
## Catalog matcher (`matcher/matcher.py`, `match_order_to_catalog`,
lines 330-455)

Per order record, in strict priority order: exact code match (confidence 1.0,
method `"code"`), exact normalized-description match (0.90, `"desc_exact"`),
empty normalized description (0.0, `"no_name"`, status `"NON TROVATO"`), and
otherwise the fuzzy step.  The three rapidfuzz ratios are injected as
functions valued in `[0, 100]`; the recency/frequency dictionaries are
modelled as total functions (`dict.get(pid, 0.0)`). -/

structure CatItem where
  pid : String
  name : String
deriving DecidableEq

structure OrderRec where
  code : String
  desc : String
  descNorm : String
  qty : ℤ
deriving DecidableEq

structure Cand where
  pid : String
  name : String
  prob : ℚ
deriving DecidableEq

structure MatchResult where
  order_itemcode : String
  order_desc : String
  order_qty : ℤ
  matched_itemcode : Option String
  matched_name : Option String
  probability : ℚ
  method : String
  status : String
  candidates : Option (List Cand)
deriving DecidableEq

structure SimEntry where
  pid : String
  name : String
  p : ℚ
deriving DecidableEq

def pyStripStr (s : String) : String := (pyStripChars s.toList).asString

/-- Python `round` (round half to even) on an exact rational. -/
def pyRound (q : ℚ) : ℤ :=
  let f := ⌊q⌋
  let r := q - f
  if r < 1/2 then f
  else if 1/2 < r then f + 1
  else if f % 2 = 0 then f else f + 1

/-- Python `round(x, 3)` on an exact rational. -/
def pyRound3 (q : ℚ) : ℚ := (pyRound (q * 1000) : ℚ) / 1000

/-- One `sims` entry per catalog row (`matcher.py` lines 418-430): `sim` is
the maximum of the three string-similarity ratios scaled to `[0,1]`, `pb` the
purchase bias `0.4·recency + 0.6·frequency`, and the combined confidence
`0.35·sim + 0.65·pb`. -/
def fuzzySims (f1 f2 f3 : String → String → ℚ) (freq rec : String → ℚ)
    (cat : List CatItem) (onorm : String) : List SimEntry :=
  cat.map fun it =>
    let nn := normTxt it.name
    let sim := max (f1 onorm nn) (max (f2 onorm nn) (f3 onorm nn)) / 100
    let pb := 0.4 * rec it.pid + 0.6 * freq it.pid
    { pid := it.pid, name := it.name, p := 0.35 * sim + 0.65 * pb }

/-- The fuzzy branch of `match_order_to_catalog` (lines 417-454): sort the
entries by combined confidence descending (stable), take the best for the
match decision and the first `topk` as candidates. -/
def fuzzyStep (f1 f2 f3 : String → String → ℚ) (freq rec : String → ℚ)
    (accept review : ℚ) (topk : Nat) (cat : List CatItem) (r : OrderRec) :
    MatchResult :=
  let sims := (fuzzySims f1 f2 f3 freq rec cat r.descNorm).insertionSort
    fun x y => y.p ≤ x.p
  let best := sims.headD { pid := "", name := "", p := 0 }
  { order_itemcode := pyStripStr r.code, order_desc := r.desc,
    order_qty := r.qty,
    matched_itemcode := if review ≤ best.p then some best.pid else none,
    matched_name := if review ≤ best.p then some best.name else none,
    probability := pyRound3 best.p,
    method := "desc_fuzzy",
    status :=
      if accept ≤ best.p then "OK"
      else if review ≤ best.p then "DA RIVEDERE" else "NON TROVATO",
    candidates := some ((sims.take topk).map fun e =>
      { pid := e.pid, name := e.name, prob := pyRound3 e.p }) }

/-- `match_order_to_catalog` for a single order record (lines 360-454). -/
def matchRecord (f1 f2 f3 : String → String → ℚ) (freq rec : String → ℚ)
    (accept review : ℚ) (topk : Nat) (cat : List CatItem) (r : OrderRec) :
    MatchResult :=
  let ocode := pyStripStr r.code
  match if ocode = "" then none else cat.find? fun it => it.pid == ocode with
  | some row =>
    { order_itemcode := ocode, order_desc := r.desc, order_qty := r.qty,
      matched_itemcode := some ocode, matched_name := some row.name,
      probability := 1, method := "code", status := "OK", candidates := none }
  | none =>
    if r.descNorm ≠ "" then
      match cat.find? fun it => normTxt it.name == r.descNorm with
      | some row =>
        { order_itemcode := ocode, order_desc := r.desc, order_qty := r.qty,
          matched_itemcode := some row.pid, matched_name := some row.name,
          probability := 0.90, method := "desc_exact", status := "OK",
          candidates := none }
      | none => fuzzyStep f1 f2 f3 freq rec accept review topk cat r
    else
      { order_itemcode := ocode, order_desc := r.desc, order_qty := r.qty,
        matched_itemcode := none, matched_name := none,
        probability := 0, method := "no_name", status := "NON TROVATO",
        candidates := none }

instance : IsTotal SimEntry fun x y => y.p ≤ x.p := ⟨fun a b => le_total b.p a.p⟩

instance : IsTrans SimEntry fun x y => y.p ≤ x.p :=
  ⟨fun _ _ _ hab hbc => le_trans hbc hab⟩

/-- C3: in the fuzzy step, the candidate list is the first `topk` entries of
the similarity list sorted by combined confidence descending (and those
entries are pairwise descending, `min topk |catalog|` many); the status is
`OK` iff the best confidence is `≥ accept`, `DA RIVEDERE` iff it is
`≥ review` but `< accept`, `NON TROVATO` otherwise; and
`matched_itemcode`/`matched_name` are populated exactly when the best
confidence is `≥ review`. -/
theorem fuzzy_match_spec (f1 f2 f3 : String → String → ℚ)
    (freq rec : String → ℚ) (accept review : ℚ) (topk : Nat)
    (cat : List CatItem) (r : OrderRec) (_hcat : cat ≠ []) :
    let sims := (fuzzySims f1 f2 f3 freq rec cat r.descNorm).insertionSort
      fun x y => y.p ≤ x.p
    let best := sims.headD { pid := "", name := "", p := 0 }
    let res := fuzzyStep f1 f2 f3 freq rec accept review topk cat r
    res.candidates = some ((sims.take topk).map fun e =>
        { pid := e.pid, name := e.name, prob := pyRound3 e.p }) ∧
    (sims.take topk).Pairwise (fun x y => y.p ≤ x.p) ∧
    (sims.take topk).length = min topk cat.length ∧
    (res.status = "OK" ↔ accept ≤ best.p) ∧
    (res.status = "DA RIVEDERE" ↔ review ≤ best.p ∧ ¬accept ≤ best.p) ∧
    (res.status = "NON TROVATO" ↔ ¬accept ≤ best.p ∧ ¬review ≤ best.p) ∧
    (res.matched_itemcode = some best.pid ↔ review ≤ best.p) ∧
    (res.matched_name = some best.name ↔ review ≤ best.p) ∧
    (res.matched_itemcode = none ↔ ¬review ≤ best.p) := by
  intro sims best res
  have hsorted : sims.Pairwise fun x y => y.p ≤ x.p :=
    List.sorted_insertionSort _ _
  have hlen : (sims.take topk).length = min topk cat.length := by
    show ((List.insertionSort _ _).take topk).length = _
    rw [List.length_take, List.length_insertionSort]
    unfold fuzzySims
    rw [List.length_map]
  refine ⟨rfl, hsorted.sublist (List.take_sublist _ _), hlen, ?_, ?_, ?_, ?_, ?_, ?_⟩
  · show (if accept ≤ best.p then "OK"
      else if review ≤ best.p then "DA RIVEDERE" else "NON TROVATO") = "OK" ↔ _
    by_cases h1 : accept ≤ best.p
    · simp [h1]
    · by_cases h2 : review ≤ best.p <;> simp [h1, h2]
  · show (if accept ≤ best.p then "OK"
      else if review ≤ best.p then "DA RIVEDERE" else "NON TROVATO") =
        "DA RIVEDERE" ↔ _
    by_cases h1 : accept ≤ best.p
    · simp [h1]
    · by_cases h2 : review ≤ best.p <;> simp [h1, h2]
  · show (if accept ≤ best.p then "OK"
      else if review ≤ best.p then "DA RIVEDERE" else "NON TROVATO") =
        "NON TROVATO" ↔ _
    by_cases h1 : accept ≤ best.p
    · simp [h1]
    · by_cases h2 : review ≤ best.p <;> simp [h1, h2]
  · show (if review ≤ best.p then some best.pid else none) = some best.pid ↔ _
    by_cases h2 : review ≤ best.p <;> simp [h2]
  · show (if review ≤ best.p then some best.name else none) = some best.name ↔ _
    by_cases h2 : review ≤ best.p <;> simp [h2]
  · show (if review ≤ best.p then some best.pid else none) = none ↔ _
    by_cases h2 : review ≤ best.p <;> simp [h2]

def zeroSim : String → String → ℚ := fun _ _ => 0

def zeroStat : String → ℚ := fun _ => 0

def c3Cat : List CatItem := [{ pid := "1", name := "Widget" }]

def c3Rec : OrderRec := { code := "X9", desc := "Gadget", descNorm := "gadget", qty := 1 }

/-- Witness for C3: the status characterization applied to a one-item
catalog. -/
theorem fuzzy_match_spec_witness :
    (fuzzyStep zeroSim zeroSim zeroSim zeroStat zeroStat (7/10) (1/2) 5
        c3Cat c3Rec).status = "OK" ↔
      (7/10 : ℚ) ≤ (((fuzzySims zeroSim zeroSim zeroSim zeroStat zeroStat
        c3Cat c3Rec.descNorm).insertionSort fun x y => y.p ≤ x.p).headD
          { pid := "", name := "", p := 0 }).p :=
  (fuzzy_match_spec zeroSim zeroSim zeroSim zeroStat zeroStat (7/10) (1/2) 5
    c3Cat c3Rec (by decide)).2.2.2.1

end Matcher

namespace Matcher

def c4Cat : List CatItem := [{ pid := "", name := "Widget" }]

def c4Rec : OrderRec := { code := "", desc := "", descNorm := "", qty := 1 }

/-- Counterexample to C4 as stated: the code of `c4Rec` (the empty string)
exactly equals the catalog product id of the only `c4Cat` item, yet the
matcher does not return a code match — `if ocode and ocode in codes` requires
a *truthy* (non-empty) code, so the record falls through to the `no_name`
branch with confidence `0` and status `NON TROVATO` instead of confidence
`1.0`, method `"code"`, status `OK`. -/
theorem exact_code_match_counterexample :
    (pyStripStr c4Rec.code ∈ c4Cat.map (·.pid)) ∧
    (matchRecord zeroSim zeroSim zeroSim zeroStat zeroStat (7/10) (1/2) 5
        c4Cat c4Rec).method = "no_name" ∧
    (matchRecord zeroSim zeroSim zeroSim zeroStat zeroStat (7/10) (1/2) 5
        c4Cat c4Rec).probability = 0 ∧
    (matchRecord zeroSim zeroSim zeroSim zeroStat zeroStat (7/10) (1/2) 5
        c4Cat c4Rec).status = "NON TROVATO" := by
  refine ⟨by decide, by decide, ?_, by decide⟩
  rfl

/-- C4 amended: for every order record whose **non-empty** stripped code
exactly matches a catalog `product_id`, the matcher returns confidence `1.0`,
method `"code"` and status `OK`, regardless of the record's description —
exact (non-empty) code match takes strict priority over description
matching.  (The code requires a truthy code: `if ocode and ocode in codes`.) -/
theorem exact_code_match (f1 f2 f3 : String → String → ℚ)
    (freq rec : String → ℚ) (accept review : ℚ) (topk : Nat)
    (cat : List CatItem) (r : OrderRec)
    (hne : pyStripStr r.code ≠ "")
    (hmem : pyStripStr r.code ∈ cat.map (·.pid)) :
    ∃ row ∈ cat, row.pid = pyStripStr r.code ∧
      matchRecord f1 f2 f3 freq rec accept review topk cat r =
        { order_itemcode := pyStripStr r.code, order_desc := r.desc,
          order_qty := r.qty,
          matched_itemcode := some (pyStripStr r.code),
          matched_name := some row.name,
          probability := 1, method := "code", status := "OK",
          candidates := none } := by
  have hex : ∃ it ∈ cat, (it.pid == pyStripStr r.code) = true := by
    rcases List.mem_map.1 hmem with ⟨it, hit, hpid⟩
    exact ⟨it, hit, by simp [hpid]⟩
  have hsome : (cat.find? fun it => it.pid == pyStripStr r.code).isSome :=
    List.find?_isSome.2 hex
  rcases Option.isSome_iff_exists.1 hsome with ⟨row, hrow⟩
  refine ⟨row, List.mem_of_find?_eq_some hrow, ?_, ?_⟩
  · have := List.find?_some hrow
    simpa using this
  · simp only [matchRecord]
    rw [if_neg hne, hrow]

def c4WitnessCat : List CatItem := [{ pid := "A1", name := "Widget" }]

def c4WitnessRec : OrderRec :=
  { code := "A1", desc := "totally different text", descNorm := "totally different text", qty := 2 }

/-- Witness for the amended C4 at a concrete catalog and record. -/
theorem exact_code_match_witness :
    ∃ row ∈ c4WitnessCat, row.pid = pyStripStr c4WitnessRec.code ∧
      matchRecord zeroSim zeroSim zeroSim zeroStat zeroStat (7/10) (1/2) 5
          c4WitnessCat c4WitnessRec =
        { order_itemcode := pyStripStr c4WitnessRec.code,
          order_desc := c4WitnessRec.desc,
          order_qty := c4WitnessRec.qty,
          matched_itemcode := some (pyStripStr c4WitnessRec.code),
          matched_name := some row.name,
          probability := 1, method := "code", status := "OK",
          candidates := none } :=
  exact_code_match zeroSim zeroSim zeroSim zeroStat zeroStat (7/10) (1/2) 5
    c4WitnessCat c4WitnessRec (by decide) (by decide)

end Matcher

namespace Matcher

/-!
## PDF text-fallback extraction (`matcher/matcher.py`, `load_order_pdf`,
lines 166-241)

When table extraction yields nothing usable, the page text is split into
lines (stripped); scanning begins after a header line containing both
`Item`/`ITEM` and `Qty`/`QTY`; a line containing one of the (case-sensitive)
markers `"Net Total"`, `"Grand"`, `"Grand Total"`, `"Net"`, `"Delivery
Date"` stops the page scan, flushing any pending description with quantity 1;
upper-case lines accumulate into the current description; once a description
is pending, the first line with a number `(\d+[\.,]\d+)|(\d+)` closes the
record — quantity `int(round(value))` if the value is positive else 1, and
the last run of 5 or more digits in that line (if any) as the code. -/

/-- `str.upper` per character (ASCII). -/
def pyUpperChar (c : Char) : Char :=
  match (asciiCaseMap.map fun p => (p.2, p.1)).lookup c with
  | some u => u
  | none => c

/-- Python substring membership `needle in hay` on character lists. -/
def listStartsWith : List Char → List Char → Bool
  | [], _ => true
  | _ :: _, [] => false
  | a :: as, b :: bs => a == b && listStartsWith as bs

def listContainsSub (needle : List Char) : List Char → Bool
  | [] => needle.isEmpty
  | c :: cs => listStartsWith needle (c :: cs) || listContainsSub needle cs

/-- Python `text.split("\n")` (keeps empty pieces). -/
def splitOnNlAux : List Char → List Char → List (List Char)
  | cur, [] => [cur.reverse]
  | cur, c :: cs =>
    if c = '\n' then cur.reverse :: splitOnNlAux [] cs
    else splitOnNlAux (c :: cur) cs

/-- Stop markers (`matcher.py` line 191), checked with case-sensitive `in`. -/
def isTermLineC (l : List Char) : Bool :=
  (["Net Total", "Grand", "Grand Total", "Net", "Delivery Date"].map
    String.toList).any fun t => listContainsSub t l

/-- Header detection (line 187): both an item marker and a quantity marker
in the same line. -/
def headerLineC (l : List Char) : Bool :=
  (listContainsSub "Item".toList l || listContainsSub "ITEM".toList l) &&
    (listContainsSub "Qty".toList l || listContainsSub "QTY".toList l)

/-- Description line (lines 198-203): longer than 3 characters, contains a
letter, fully upper-case, not an HSN line. -/
def isDescLineC (l : List Char) : Bool :=
  decide (3 < l.length) && l.any Char.isAlpha && (l.map pyUpperChar == l) &&
    !("HSN".toList.isPrefixOf l)

/-- Relaxed continuation line (lines 224-229): non-empty instead of `> 3`. -/
def contDescLineC (l : List Char) : Bool :=
  decide (0 < l.length) && l.any Char.isAlpha && (l.map pyUpperChar == l) &&
    !("HSN".toList.isPrefixOf l)

/-- First match of `(\d+[\.,]\d+)|(\d+)` (line 208): the integer digit run
and the fractional digit run (empty when the integer branch matched). -/
def findNumber : List Char → Option (List Char × List Char)
  | [] => none
  | c :: cs =>
    if c.isDigit then
      let d1 := (c :: cs).takeWhile Char.isDigit
      let rest := (c :: cs).dropWhile Char.isDigit
      match rest with
      | sep :: d :: _ =>
        if (sep = '.' || sep = ',') && d.isDigit then
          some (d1, (rest.drop 1).takeWhile Char.isDigit)
        else some (d1, [])
      | _ => some (d1, [])
    else findNumber cs

def digitsToNat (l : List Char) : ℕ :=
  l.foldl (fun acc c => 10 * acc + (c.toNat - 48)) 0

/-- `int(round(q_val))` for the exact decimal `d1.frac` (Python `round` is
round-half-to-even). -/
def roundHalfEven (n1 : ℕ) (frac : List Char) : ℕ :=
  let n2 := digitsToNat frac
  let den := 10 ^ frac.length
  if 2 * n2 < den then n1
  else if den < 2 * n2 then n1 + 1
  else if n1 % 2 = 0 then n1 else n1 + 1

/-- `qty = int(round(q_val)) if q_val > 0 else 1` (line 213). -/
def qtyOfNumber (d1 frac : List Char) : ℤ :=
  if 0 < digitsToNat d1 ∨ 0 < digitsToNat frac then
    (roundHalfEven (digitsToNat d1) frac : ℤ)
  else 1

/-- Maximal digit runs of the line (`re.findall(r"\d{5,}", line)` matches the
maximal runs of length ≥ 5). -/
def digitRunsAux : List Char → List Char → List (List Char)
  | cur, [] => if cur.isEmpty then [] else [cur.reverse]
  | cur, c :: cs =>
    if c.isDigit then digitRunsAux (c :: cur) cs
    else if cur.isEmpty then digitRunsAux [] cs
    else cur.reverse :: digitRunsAux [] cs

/-- `code_candidates[-1] if code_candidates else ""` (lines 217-218). -/
def codeFromLine (l : List Char) : String :=
  match ((digitRunsAux [] l).filter fun r => decide (5 ≤ r.length)).getLast? with
  | some r => r.asString
  | none => ""

structure PdfRec where
  code : String
  desc : String
  qty : ℤ
deriving DecidableEq

/-- `" ".join(current_desc)`. -/
def joinSpaceAux : List (List Char) → List Char
  | [] => []
  | [w] => w
  | w :: ws => w ++ ' ' :: joinSpaceAux ws

/-- Flush a pending description as a final record with quantity 1 and no
code (lines 192-195 and 231-236). -/
def flushDesc (cur : List (List Char)) : List PdfRec :=
  if cur.isEmpty then []
  else [{ code := "", desc := (joinSpaceAux cur).asString, qty := 1 }]

/-- The per-page scanning loop of the improved text fallback
(lines 183-236).  The `Bool` is `in_table`, the list accumulator is
`current_desc`. -/
def scanLines : Bool → List (List Char) → List (List Char) → List PdfRec
  | _, cur, [] => flushDesc cur
  | false, cur, l :: ls =>
    if headerLineC l then scanLines true cur ls else scanLines false cur ls
  | true, cur, l :: ls =>
    if isTermLineC l then flushDesc cur
    else if isDescLineC l then scanLines true (cur ++ [l]) ls
    else if !cur.isEmpty then
      match findNumber l with
      | some (d1, frac) =>
        { code := codeFromLine l, desc := (joinSpaceAux cur).asString,
          qty := qtyOfNumber d1 frac } :: scanLines true [] ls
      | none =>
        if contDescLineC l then scanLines true (cur ++ [l]) ls
        else scanLines true cur ls
    else scanLines true cur ls

/-- The improved text fallback over the page texts: split each page into
stripped lines and scan (records of all pages concatenated). -/
def improvedFallback (pages : List String) : List PdfRec :=
  (pages.map fun page =>
    scanLines false [] ((splitOnNlAux [] page.toList).map pyStripChars)).flatten

/-- C5 (code bug): on the text block `"ITEM QTY\nWIDGET RED\n5\nNET TOTAL"`
the fallback does NOT stop at `"NET TOTAL"`: the termination markers
(`"Net Total"`, `"Net"`, ...) are compared case-sensitively and do not match
the upper-case line, which instead qualifies as a description line and is
flushed at page end as a second record `{desc: "NET TOTAL", qty: 1}` —
whereas the claim (and the code's own comments, lines 170-176) require
scanning to stop there and exactly one record to be produced. -/
theorem extraction_net_total_bug :
    improvedFallback ["ITEM QTY\nWIDGET RED\n5\nNET TOTAL"] =
      [{ code := "", desc := "WIDGET RED", qty := 5 },
       { code := "", desc := "NET TOTAL", qty := 1 }] ∧
    isTermLineC "NET TOTAL".toList = false ∧
    isTermLineC "Net Total".toList = true := by
  refine ⟨?_, by decide, by decide⟩
  decide

end Matcher

namespace RecScript

/-!
## Reorder scoring (`recommendation_script.py`, `compute_reorder_scores`,
lines 39-60)

Per (customer, product) group with the purchase dates sorted: if there is
more than one purchase, the median of the consecutive gaps and the days since
the last purchase feed the logistic
`1 / (1 + exp((days_since_last − median) / (median if median else 1)))`;
otherwise a fixed 180-day cadence is used.  Dates are modelled as integer
day numbers. -/

def sortedInts (l : List ℤ) : List ℤ := l.insertionSort (· ≤ ·)

/-- `dates.diff().dropna().dt.days` on the sorted dates. -/
def gaps (dates : List ℤ) : List ℤ :=
  (sortedInts dates).tail.zipWith (fun next prev => next - prev) (sortedInts dates)

/-- `dates.max()` (only used on non-empty groups). -/
def listMaxInt : List ℤ → ℤ
  | [] => 0
  | x :: xs => xs.foldl max x

/-- `Series.median()`: middle element for odd length, mean of the two middle
elements for even length (only used on non-empty series). -/
def medianOfInts (l : List ℤ) : ℚ :=
  let s := l.insertionSort (· ≤ ·)
  if s.length % 2 = 1 then ((s.getD (s.length / 2) 0 : ℤ) : ℚ)
  else (((s.getD (s.length / 2 - 1) 0 : ℤ) : ℚ) + ((s.getD (s.length / 2) 0 : ℤ) : ℚ)) / 2

def medianGap (dates : List ℤ) : ℚ := medianOfInts (gaps dates)

def daysSinceLast (dates : List ℤ) (ref : ℤ) : ℤ := ref - listMaxInt dates

/-- The logistic argument: `(days_since_last − median) / (median if median
else 1)` for repeat purchases, the 180-day variant otherwise. -/
def reorderArg (dates : List ℤ) (ref : ℤ) : ℚ :=
  if 1 < dates.length then
    let m := medianGap dates
    ((daysSinceLast dates ref : ℚ) - m) / (if m ≠ 0 then m else 1)
  else ((daysSinceLast dates ref : ℚ) - 180) / 180

noncomputable def logistic (x : ℝ) : ℝ := 1 / (1 + Real.exp x)

/-- `reorder_score` of `compute_reorder_scores` for one (customer, product)
group. -/
noncomputable def reorderScore (dates : List ℤ) (ref : ℤ) : ℝ :=
  logistic ((reorderArg dates ref : ℚ) : ℝ)

theorem logistic_gt_half {x : ℝ} (hx : x < 0) : 1 / 2 < logistic x := by
  unfold logistic
  have he : Real.exp x < 1 := Real.exp_lt_one_iff.2 hx
  have hp : (0 : ℝ) < 1 + Real.exp x := by positivity
  rw [div_lt_div_iff₀ (by norm_num) hp]
  linarith

/-- C6: a customer buying product P at days 0, 10 and 20 (median gap 10)
with reference date at day 25 (5 days since last purchase) gets a reorder
score strictly greater than 0.5. -/
theorem reorder_due_soon : 1 / 2 < reorderScore [0, 10, 20] 25 := by
  have hg : gaps [0, 10, 20] = [10, 10] := by decide
  have hsort : (([10, 10] : List ℤ).insertionSort (· ≤ ·)) = [10, 10] := by decide
  have hmed : medianGap [0, 10, 20] = 10 := by
    unfold medianGap
    rw [hg]
    unfold medianOfInts
    rw [hsort]
    norm_num
  have hdays : daysSinceLast [0, 10, 20] 25 = 5 := by decide
  have harg : reorderArg [0, 10, 20] 25 = -(1/2) := by
    unfold reorderArg
    rw [if_pos (by decide)]
    rw [hmed, hdays]
    norm_num
  unfold reorderScore
  rw [harg]
  apply logistic_gt_half
  norm_num

end RecScript

namespace Matcher

/-!
## Tabular column classification (`matcher/matcher.py`, `load_order_pdf`,
lines 128-154)

Per table column, the first 50 cells are sampled; the column feeds the item
code when more than 20 sampled cells match `^[A-Za-z0-9\-\._]{3,}$`, the
quantity when more than 20 match `^\d+([,\.]\d+)?$`, and the description
when more than 20 are longer than 15 characters. -/

/-- `re.match(r"^[A-Za-z0-9\-\._]{3,}$", v)`. -/
def alnumCodePat (s : String) : Bool :=
  decide (3 ≤ s.length) && s.toList.all fun c =>
    c.isAlpha || c.isDigit || c = '-' || c = '.' || c = '_'

/-- `re.match(r"^\d+([,\.]\d+)?$", v)`. -/
def decimalPat (s : String) : Bool :=
  let l := s.toList
  let d1 := l.takeWhile Char.isDigit
  let rest := l.dropWhile Char.isDigit
  !d1.isEmpty &&
    (rest.isEmpty ||
      (match rest with
       | sep :: ds => (sep = ',' || sep = '.') && !ds.isEmpty && ds.all Char.isDigit
       | [] => false))

/-- `len(v) > 15`. -/
def longTextPat (s : String) : Bool := decide (15 < s.length)

structure ColumnClass where
  codeLike : Bool
  numericLike : Bool
  longText : Bool
deriving DecidableEq

/-- The column classification of lines 128-154: sample the first 50 cells
and compare each pattern count against the threshold (`alnum > 20`,
`numeric > 20`, `longtxt > 20` — strictly greater). -/
def classifyColumn (cells : List String) : ColumnClass :=
  let sample := cells.take 50
  { codeLike := decide (20 < sample.countP alnumCodePat),
    numericLike := decide (20 < sample.countP decimalPat),
    longText := decide (20 < sample.countP longTextPat) }

def c8Demo : List String := List.replicate 20 "ABC"

/-- Counterexample to C8 as stated: a column whose sample has exactly 20
code-like cells is NOT classified code-like — the code tests `alnum > 20`
(at least 21), not `≥ 20` as claimed. -/
theorem column_classification_counterexample :
    20 ≤ (c8Demo.take 50).countP alnumCodePat ∧
    (classifyColumn c8Demo).codeLike = false := by
  constructor
  · decide
  · decide

/-- C8 amended: per column a sample of up to 50 cells is taken, and the
column is classified code-like exactly when MORE than 20 (i.e. at least 21)
sampled cells match the alphanumeric-with-separators pattern (length ≥ 3),
numeric-like exactly when more than 20 match the plain decimal pattern, and
long-text exactly when more than 20 exceed 15 characters. -/
theorem column_classification (cells : List String) :
    ((classifyColumn cells).codeLike = true ↔
      20 < (cells.take 50).countP alnumCodePat) ∧
    ((classifyColumn cells).numericLike = true ↔
      20 < (cells.take 50).countP decimalPat) ∧
    ((classifyColumn cells).longText = true ↔
      20 < (cells.take 50).countP longTextPat) := by
  unfold classifyColumn
  refine ⟨?_, ?_, ?_⟩ <;> simp

/-- Witness for the amended C8: with 21 matching cells the column is
code-like. -/
theorem column_classification_witness :
    (classifyColumn (List.replicate 21 "ABC")).codeLike = true ↔
      20 < ((List.replicate 21 "ABC").take 50).countP alnumCodePat :=
  (column_classification (List.replicate 21 "ABC")).1

end Matcher

namespace Matcher

/-!
## Customer statistics — recency (`matcher/matcher.py`,
`_build_customer_stats`, lines 284-327)

A sales row of the (already customer-filtered) history: product id, quantity
and the parsed order date (`pd.to_datetime(..., errors="coerce")`: `none`
models `NaT`, an unparseable date).  The branch condition
`"order_date" in df.columns and is_datetime64_any_dtype(pd.to_datetime(...))`
is `datesPresent`: with `errors="coerce"` the converted column always has a
datetime dtype, so the condition only tests column presence.  Recency values
are `Option ℚ` with `none` modelling pandas `NaN`/`NaT` propagation. -/

structure StatRow where
  pid : String
  qty : ℤ
  date : Option ℤ
deriving DecidableEq

def optMax : List ℤ → Option ℤ
  | [] => none
  | x :: xs => some (xs.foldl max x)

def optMin : List ℤ → Option ℤ
  | [] => none
  | x :: xs => some (xs.foldl min x)

/-- The parseable dates of all rows (`Series.max`/`min` skip `NaT`). -/
def parsedDates (rows : List StatRow) : List ℤ := rows.filterMap (·.date)

/-- The parseable dates of product `p`'s rows. -/
def productDates (rows : List StatRow) (p : String) : List ℤ :=
  (rows.filter fun r => r.pid == p).filterMap (·.date)

def clip01 (x : ℚ) : ℚ := max 0 (min 1 x)

/-- The recency score of product `p` (lines 315-326): without the date
column, `0.5` for every product of the customer; with it,
`clip(1 − (last_overall − last_p) / ((last_overall − first_overall) + 1e-9),
0, 1)` over the parseable dates, `NaN` (`none`) when `p` has no parseable
date. -/
def recencyScore (rows : List StatRow) (datesPresent : Bool) (p : String) :
    Option ℚ :=
  if !datesPresent then
    if p ∈ rows.map (·.pid) then some (1/2) else none
  else
    match optMax (parsedDates rows), optMin (parsedDates rows),
        optMax (productDates rows p) with
    | some dmax, some dmin, some lastP =>
      some (clip01 (1 - ((dmax - lastP : ℤ) : ℚ) /
        (((dmax - dmin : ℤ) : ℚ) + 1 / 1000000000)))
    | _, _, _ => none

def c9Rows : List StatRow := [{ pid := "P", qty := 1, date := none }]

/-- Counterexample to C9 as stated: the date column is present but no date
is parseable (all `NaT`), and the recency of the product is `NaN` (`none`),
not `0.5` — the `is_datetime64_any_dtype(pd.to_datetime(..., errors=
"coerce"))` guard is vacuously true for any present column, so the 0.5
fallback is never taken for present-but-unparseable dates. -/
theorem recency_unparseable_counterexample :
    recencyScore c9Rows true "P" ≠ some (1/2) ∧
    recencyScore c9Rows true "P" = none := by
  constructor
  · decide
  · decide

/-- C9 amended: the recency score is `0.5` for every product of the customer
exactly when the order-date column is absent; when the column is present,
`recency(p) = clip(1 − (last_overall − last_p)/((span days) + 1e-9), 0, 1)`
over the parseable dates, and it is undefined (`NaN`) for a product with no
parseable date. -/
theorem recency_spec (rows : List StatRow) (p : String) :
    (recencyScore rows false p =
      if p ∈ rows.map (·.pid) then some (1/2) else none) ∧
    (∀ dmax dmin lastP, optMax (parsedDates rows) = some dmax →
      optMin (parsedDates rows) = some dmin →
      optMax (productDates rows p) = some lastP →
      recencyScore rows true p =
        some (clip01 (1 - ((dmax - lastP : ℤ) : ℚ) /
          (((dmax - dmin : ℤ) : ℚ) + 1 / 1000000000)))) ∧
    (optMax (productDates rows p) = none → recencyScore rows true p = none) := by
  refine ⟨rfl, ?_, ?_⟩
  · intro dmax dmin lastP h1 h2 h3
    unfold recencyScore
    rw [h1, h2, h3]
    simp
  · intro h3
    unfold recencyScore
    rw [h3]
    rcases optMax (parsedDates rows) with _ | dmax <;>
      rcases optMin (parsedDates rows) with _ | dmin <;> rfl

def c9WitnessRows : List StatRow :=
  [{ pid := "P", qty := 1, date := some 0 },
   { pid := "P", qty := 2, date := some 10 }]

/-- Witness for the amended C9 at a two-purchase history. -/
theorem recency_spec_witness :
    recencyScore c9WitnessRows true "P" =
      some (clip01 (1 - ((10 - 10 : ℤ) : ℚ) /
        (((10 - 0 : ℤ) : ℚ) + 1 / 1000000000))) :=
  (recency_spec c9WitnessRows "P").2.1 10 0 10 (by decide) (by decide) (by decide)

end Matcher
